import Mathlib

/-!
Verification development for the MTS interpreter (kmizu/mts): a small
ML-family expression language with a Hindley-Milner inferencer extended with
row-polymorphic records, and a tree-walking evaluator.

The definitions below are shallow embeddings translated from the TypeScript
sources:

* `src/types.ts` — types, substitutions, free variables, generalize and
  instantiate (the document also shipped as `src/unnamed/part_002`);
* `src/infer.ts` — the `TypeInferrer` class: constraint accumulation,
  unification with row polymorphism, occurs check, constraint solving;
* the evaluator class shipped inside `src/cli.ts` — runtime values,
  `Environment`, and `Evaluator`;
* `src/lexer.ts` and `src/parser.ts` — tokenizer and recursive-descent
  parser.

Modelling conventions, applied uniformly:

* JavaScript numbers (IEEE doubles) are modelled as `Rat`.  Every program
  examined here computes with small integers, on which double arithmetic is
  exact.  The decimal rendering of a non-integral number (used only when a
  number is coerced into a string) is idealized.
* Insertion-ordered `Map`s are modelled as association lists whose `set`
  replaces an existing key in place and appends a fresh key at the end,
  which matches JavaScript `Map` iteration order.
* Recursive procedures take an explicit fuel argument which strictly
  decreases on every nested call; `.error "out of fuel"` never occurs in
  any run appearing in a theorem.
* Source spans carried by tokens and AST nodes are omitted: they only
  decorate error metadata and no verified statement mentions them.
-/

set_option maxHeartbeats 1000000

namespace MTS

/-! ## Types (`src/types.ts`)

A type is a type variable, a row variable, a primitive, an array, a
dictionary, a record given by a row (ordered fields plus an optional row
variable tail), or a function type.  Display names attached to variables in
the source are dropped: every operation in `types.ts` and `infer.ts`
compares variables by numeric id only, so names never influence behaviour.
-/

inductive Ty where
  | tvar (id : Nat)
  | rvar (id : Nat)
  | number
  | string
  | boolean
  | null
  | undefined
  | unit
  | array (elem : Ty)
  | dict (key : Ty) (value : Ty)
  | object (fields : List (String × Ty)) (rowVar : Option Nat)
  | fn (params : List Ty) (ret : Ty)
deriving Repr

/-- A type scheme: quantified type-variable ids plus a body
(`TypeScheme` in `src/types.ts`). -/
structure Scheme where
  typeVars : List Nat
  type : Ty
deriving Repr

/-- A substitution (`Map<number, Type>` in the source): an insertion-ordered
association list from variable ids to types. -/
abbrev Subst := List (Nat × Ty)

/-- First-match lookup, the behaviour of `Map.get`. -/
def subGet (s : Subst) (id : Nat) : Option Ty :=
  match s with
  | [] => none
  | (k, t) :: rest => if k = id then some t else subGet rest id

/-- `Map.set`: replace an existing key in place, else append. -/
def subSet (s : Subst) (id : Nat) (t : Ty) : Subst :=
  match s with
  | [] => [(id, t)]
  | (k, t0) :: rest => if k = id then (k, t) :: rest else (k, t0) :: subSet rest id t

/-- Type environments (`Map<string, TypeScheme>`). -/
abbrev TypeEnv := List (String × Scheme)

def envGetT (env : TypeEnv) (name : String) : Option Scheme :=
  match env with
  | [] => none
  | (k, s) :: rest => if k = name then some s else envGetT rest name

def envSetT (env : TypeEnv) (name : String) (sc : Scheme) : TypeEnv :=
  match env with
  | [] => [(name, sc)]
  | (k, s0) :: rest =>
      if k = name then (k, sc) :: rest else (k, s0) :: envSetT rest name sc

/-- One equality constraint between two types. -/
structure Constraint where
  left : Ty
  right : Ty
deriving Repr

/-- `applyRowSubstitution` from `src/types.ts`: a row-variable tail is
replaced only when its image under the substitution is again a row
variable; any other image leaves the tail unchanged. -/
def applyRowSubstitution (sub : Subst) (rowVar : Nat) : Nat :=
  match subGet sub rowVar with
  | some (.rvar r) => r
  | _ => rowVar

mutual

/-- `applySubstitution` from `src/types.ts`: replace type variables by
their images, recursing into arrays, dictionaries, rows and function
types.  A bare row variable in type position is looked up directly. -/
def applySubstitution (sub : Subst) : Ty → Ty
  | .tvar id => (subGet sub id).getD (.tvar id)
  | .rvar id => (subGet sub id).getD (.rvar id)
  | .array e => .array (applySubstitution sub e)
  | .dict k v => .dict (applySubstitution sub k) (applySubstitution sub v)
  | .object fields rowVar =>
      .object (applySubFields sub fields) (rowVar.map (applyRowSubstitution sub))
  | .fn ps r => .fn (applySubList sub ps) (applySubstitution sub r)
  | t => t

def applySubFields (sub : Subst) : List (String × Ty) → List (String × Ty)
  | [] => []
  | (k, t) :: rest => (k, applySubstitution sub t) :: applySubFields sub rest

def applySubList (sub : Subst) : List Ty → List Ty
  | [] => []
  | t :: rest => applySubstitution sub t :: applySubList sub rest

end

/-- `composeSubstitutions`: apply `s1` to every image of `s2`, then fold in
the entries of `s1` whose key is not already bound.  The entry order of the
result matches JavaScript `Map` insertion order. -/
def composeSubstitutions (s1 s2 : Subst) : Subst :=
  s2.map (fun p => (p.1, applySubstitution s1 p.2))
    ++ s1.filter (fun p => (subGet s2 p.1).isNone)

/-- Insert-once append, the effect of `Set.add` on iteration order. -/
def addId (l : List Nat) (id : Nat) : List Nat :=
  if id ∈ l then l else l ++ [id]

def unionIds (l : List Nat) : List Nat → List Nat
  | [] => l
  | id :: rest => unionIds (addId l id) rest

mutual

/-- `freeTypeVars`: the ids of type and row variables free in a type, in
first-visit order (the iteration order of the `Set` built by the source). -/
def freeTypeVars : Ty → List Nat
  | .tvar id => [id]
  | .rvar id => [id]
  | .array e => freeTypeVars e
  | .dict k v => unionIds (freeTypeVars k) (freeTypeVars v)
  | .object fields rowVar =>
      let base := freeFieldVars fields
      match rowVar with
      | some r => addId base r
      | none => base
  | .fn ps r => unionIds (freeParamVars ps) (freeTypeVars r)
  | _ => []

def freeFieldVars : List (String × Ty) → List Nat
  | [] => []
  | (_, t) :: rest => unionIds (freeTypeVars t) (freeFieldVars rest)

def freeParamVars : List Ty → List Nat
  | [] => []
  | t :: rest => unionIds (freeTypeVars t) (freeParamVars rest)

end

/-- `freeTypeVarsInScheme`: free variables of the body minus the
quantified ids. -/
def freeTypeVarsInScheme (sc : Scheme) : List Nat :=
  (freeTypeVars sc.type).filter (fun id => id ∉ sc.typeVars)

/-- `freeTypeVarsInEnv`: union over the schemes of the environment. -/
def freeTypeVarsInEnv (env : TypeEnv) : List Nat :=
  match env with
  | [] => []
  | (_, sc) :: rest => unionIds (freeTypeVarsInScheme sc) (freeTypeVarsInEnv rest)

/-- `generalize`: quantify exactly the ids free in the type but not free in
the environment, in the order they occur in the type. -/
def generalize (env : TypeEnv) (t : Ty) : Scheme :=
  { typeVars := (freeTypeVars t).filter (fun id => id ∉ freeTypeVarsInEnv env)
    type := t }

/-- `instantiate`: map each quantified id to a fresh type variable and apply
the resulting substitution to the body.  The fresh-variable counter is
explicit; the source draws from the module-global `typeVarCounter`. -/
def instantiate (sc : Scheme) (counter : Nat) : Ty × Nat :=
  let step := sc.typeVars.foldl
    (fun (acc : Subst × Nat) q => (subSet acc.1 q (.tvar acc.2), acc.2 + 1))
    (([] : Subst), counter)
  (applySubstitution step.1 sc.type, step.2)

mutual

/-- `typesEqual` from `src/types.ts`: structural equality that compares
record rows as maps (field order is irrelevant, sizes and row-variable ids
must agree). -/
def typesEqual : Ty → Ty → Bool
  | .tvar a, .tvar b => a == b
  | .rvar a, .rvar b => a == b
  | .number, .number => true
  | .string, .string => true
  | .boolean, .boolean => true
  | .null, .null => true
  | .undefined, .undefined => true
  | .unit, .unit => true
  | .array a, .array b => typesEqual a b
  | .dict k1 v1, .dict k2 v2 => typesEqual k1 k2 && typesEqual v1 v2
  | .object f1 r1, .object f2 r2 =>
      f1.length == f2.length && fieldsIncluded f1 f2 &&
        match r1, r2 with
        | some a, some b => a == b
        | none, none => true
        | _, _ => false
  | .fn p1 r1, .fn p2 r2 =>
      p1.length == p2.length && paramsEqual p1 p2 && typesEqual r1 r2
  | _, _ => false

/-- Every field of the first row is present in the second with an equal
type (`for (const [key, type1] of t1.row.fields) ...`). -/
def fieldsIncluded : List (String × Ty) → List (String × Ty) → Bool
  | [], _ => true
  | (k, t) :: rest, f2 =>
      (match lookupField f2 k with
       | some t2 => typesEqual t t2
       | none => false) && fieldsIncluded rest f2

def paramsEqual : List Ty → List Ty → Bool
  | [], [] => true
  | a :: as1, b :: bs => typesEqual a b && paramsEqual as1 bs
  | _, _ => false

/-- `Map.get` on a row's fields. -/
def lookupField : List (String × Ty) → String → Option Ty
  | [], _ => none
  | (k, t) :: rest, key => if k = key then some t else lookupField rest key

end


/-! ## Numbers

JavaScript numbers (IEEE doubles) are modelled as exact fractions with a
positive denominator, kept unnormalized so that every arithmetic operation
is kernel-computable.  All programs examined by the claims compute with
small integers, on which double arithmetic is exact.  Comparisons and
equality are value-based (cross multiplication), as for doubles. -/

structure JNum where
  num : Int
  den : Int
deriving Repr, DecidableEq

instance : OfNat JNum n := ⟨⟨(n : Int), 1⟩⟩

def JNum.ofInt (n : Int) : JNum := ⟨n, 1⟩

def jadd (a b : JNum) : JNum := ⟨a.num * b.den + b.num * a.den, a.den * b.den⟩

def jsub (a b : JNum) : JNum := ⟨a.num * b.den - b.num * a.den, a.den * b.den⟩

def jmul (a b : JNum) : JNum := ⟨a.num * b.num, a.den * b.den⟩

def jneg (a : JNum) : JNum := ⟨-a.num, a.den⟩

/-- Division; the sign moves to the numerator to keep denominators
positive.  Division by zero is guarded by the evaluator. -/
def jdiv (a b : JNum) : JNum :=
  let n := a.num * b.den
  let d := a.den * b.num
  if d < 0 then ⟨-n, -d⟩ else ⟨n, d⟩

/-- Value equality (`===` / `==` on numbers). -/
def jeq (a b : JNum) : Bool := a.num * b.den == b.num * a.den

def jlt (a b : JNum) : Bool := a.num * b.den < b.num * a.den

def jle (a b : JNum) : Bool := a.num * b.den ≤ b.num * a.den

/-- Truncation toward zero, the rounding of JavaScript `%`. -/
def jtrunc (a : JNum) : Int := Int.tdiv a.num a.den

/-- JavaScript `%`: `a - b * trunc(a / b)`. -/
def jmod (a b : JNum) : JNum := jsub a (jmul b (JNum.ofInt (jtrunc (jdiv a b))))

/-- The integer denoted, when the value is integral. -/
def jtoInt? (a : JNum) : Option Int :=
  if Int.emod a.num a.den = 0 then some (Int.ediv a.num a.den) else none

/-- Decimal rendering; exact for the integers all verified programs
compute with, idealized otherwise. -/
def jnumToString (a : JNum) : String :=
  match jtoInt? a with
  | some i => toString i
  | none => toString a.num ++ "/" ++ toString a.den

/-! ## Abstract syntax (`src/ast.ts`)

Expressions form a single sum.  `parser.ts` constructs a variable
declaration binding one identifier to one initializer; `ast.ts` and
`infer.ts` represent a declaration as a non-empty group of bindings, so a
declaration here carries a list of bindings of which the parser always
produces a singleton (with no type annotation).  Dictionary literals are
omitted, as are the module declarations that never leave the parser.
-/

inductive TyExpr where
  | prim (p : String)
  | arrayT (elem : TyExpr)
  | dictT (key : TyExpr) (value : TyExpr)
  | fnT (params : List TyExpr) (ret : TyExpr)
  | tvarT (name : String)
deriving Repr

/-- A literal admissible as a match pattern (`parsePattern` accepts number,
string, boolean and null literals). -/
inductive LitVal where
  | num (n : JNum)
  | str (s : String)
  | bool (b : Bool)
  | null
deriving Repr

inductive Pattern where
  | lit (v : LitVal)
  | identP (name : String)
  | wild
deriving Repr

inductive Expr where
  | numLit (n : JNum)
  | strLit (s : String)
  | boolLit (b : Bool)
  | nullLit
  | undefLit
  | ident (name : String)
  | arrayE (elems : List Expr)
  | objectE (props : List (String × Expr))
  | memberE (obj : Expr) (prop : String)
  | indexE (arr : Expr) (idx : Expr)
  | fnE (params : List (String × Option TyExpr)) (retAnn : Option TyExpr) (body : Expr)
  | callE (callee : Expr) (args : List Expr)
  | binE (op : String) (l : Expr) (r : Expr)
  | unE (op : String) (e : Expr)
  | ifE (cond : Expr) (thenB : Expr) (elseB : Option Expr)
  | matchE (disc : Expr) (cases : List (Pattern × Option Expr × Expr))
  | blockE (stmts : List (Sum (List (String × Option TyExpr × Expr)) Expr)) (ret : Expr)
  | letE (bindings : List (String × Option TyExpr × Expr))
deriving Repr

/-- The literal expression stored inside a literal pattern
(`LiteralPattern.value`). -/
def litToExpr : LitVal → Expr
  | .num n => .numLit n
  | .str s => .strLit s
  | .bool b => .boolLit b
  | .null => .nullLit

/-! ## The inferrer (`src/infer.ts`)

The `TypeInferrer` object state: the equality-constraint list, the
field-access constraint list, and the two fresh-variable counters that the
source keeps as module globals in `types.ts`. -/

/-- A deferred field-access constraint `(objectType, fieldName, fieldType)`. -/
structure FieldC where
  objectType : Ty
  fieldName : String
  fieldType : Ty
deriving Repr

structure InferSt where
  constraints : List Constraint
  fieldCs : List FieldC
  tv : Nat
  rv : Nat
deriving Repr

def InferSt.init : InferSt := ⟨[], [], 0, 0⟩

def addConstraint (st : InferSt) (a b : Ty) : InferSt :=
  { st with constraints := st.constraints ++ [⟨a, b⟩] }

def addFieldC (st : InferSt) (obj : Ty) (name : String) (field : Ty) : InferSt :=
  { st with fieldCs := st.fieldCs ++ [⟨obj, name, field⟩] }

def freshTV (st : InferSt) : Ty × InferSt :=
  (.tvar st.tv, { st with tv := st.tv + 1 })

def freshRV (st : InferSt) : Nat × InferSt :=
  (st.rv, { st with rv := st.rv + 1 })

/-- `occursCheck` (`src/infer.ts` lines 1051-1068): true when the id is free
in the type — except that the check is deliberately suppressed when the
type is a record, admitting recursive record constraints. -/
def occursCheck (varId : Nat) (t : Ty) : Bool :=
  if varId ∈ freeTypeVars t then
    match t with
    | .object _ _ => false
    | _ => true
  else false

/-- `unifyVariable`: bind a type variable after the occurs check. -/
def unifyVariable (v : Nat) (t : Ty) : Except String Subst :=
  match t with
  | .tvar id =>
      if v = id then .ok [] else
      if occursCheck v t then .error "Occurs check failed" else .ok [(v, t)]
  | _ =>
      if occursCheck v t then .error "Occurs check failed" else .ok [(v, t)]

/-- `unifyRowVariable`: row variables unify only with row variables. -/
def unifyRowVariable (rv : Nat) (t : Ty) : Except String Subst :=
  match t with
  | .rvar id => if rv = id then .ok [] else .ok [(rv, .rvar id)]
  | _ => .error "Cannot unify row variable with type"

/-- Field names of a row in order. -/
def fieldNames (fields : List (String × Ty)) : List String :=
  fields.map Prod.fst

mutual

/-- `unify`: most general unifier.  Dispatch order follows the source:
`typesEqual` shortcut, type variables (left first), functions, arrays,
dictionaries, records, then row variables. -/
def unify : Nat → Ty → Ty → Except String Subst
  | 0, _, _ => .error "out of fuel"
  | fuel + 1, t1, t2 =>
    if typesEqual t1 t2 then .ok [] else
    match t1, t2 with
    | .tvar v, t => unifyVariable v t
    | t, .tvar v => unifyVariable v t
    | .fn p1 r1, .fn p2 r2 => unifyFunction fuel p1 r1 p2 r2
    | .array a, .array b => unify fuel a b
    | .dict k1 v1, .dict k2 v2 => do
        let s ← unify fuel k1 k2
        let vm ← unify fuel (applySubstitution s v1) (applySubstitution s v2)
        .ok (composeSubstitutions vm s)
    | .object f1 r1, .object f2 r2 => unifyObjectWithRows fuel f1 r1 f2 r2
    | .rvar r, t => unifyRowVariable r t
    | t, .rvar r => unifyRowVariable r t
    | _, _ => .error "Cannot unify types"
  termination_by structural fuel _ _ => fuel

/-- `unifyFunction`: arity check, then parameters and the return type,
threading the accumulated substitution left-to-right. -/
def unifyFunction : Nat → List Ty → Ty → List Ty → Ty → Except String Subst
  | 0, _, _, _, _ => .error "out of fuel"
  | fuel + 1, p1, r1, p2, r2 =>
    if p1.length ≠ p2.length then .error "Function arity mismatch"
    else do
      let s ← unifyPairs fuel p1 p2 []
      let rm ← unify fuel (applySubstitution s r1) (applySubstitution s r2)
      .ok (composeSubstitutions rm s)
  termination_by structural fuel _ _ _ _ => fuel

/-- The substitution-threading loop shared by `unifyFunction`'s parameter
pass and `unifyObjectWithRows`' common-field pass. -/
def unifyPairs : Nat → List Ty → List Ty → Subst → Except String Subst
  | 0, _, _, _ => .error "out of fuel"
  | _ + 1, [], _, s => .ok s
  | _ + 1, _ :: _, [], s => .ok s
  | fuel + 1, a :: as1, b :: bs, s => do
      let mgu ← unify fuel (applySubstitution s a) (applySubstitution s b)
      unifyPairs fuel as1 bs (composeSubstitutions mgu s)
  termination_by structural fuel _ _ _ => fuel

/-- `unifyObjectWithRows`: row unification.  Common fields unify pairwise;
a side with extra fields requires an open tail on the other side; two open
tails unify as row variables. -/
def unifyObjectWithRows : Nat → List (String × Ty) → Option Nat →
    List (String × Ty) → Option Nat → Except String Subst
  | 0, _, _, _, _ => .error "out of fuel"
  | fuel + 1, f1, r1, f2, r2 => do
      let commonKeys := (fieldNames f1).filter (fun k => k ∈ fieldNames f2)
      let left := commonKeys.filterMap (lookupField f1)
      let right := commonKeys.filterMap (lookupField f2)
      let s ← unifyPairs fuel left right []
      let obj1Only := (fieldNames f1).filter (fun k => k ∉ commonKeys)
      let obj2Only := (fieldNames f2).filter (fun k => k ∉ commonKeys)
      if obj1Only ≠ [] ∧ r2 = none then
        .error "Cannot unify object types: missing fields in second object"
      else if obj2Only ≠ [] ∧ r1 = none then
        .error "Cannot unify object types: missing fields in first object"
      else
        match r1, r2 with
        | some a, some b => do
            let rm ← unifyRowVariable a (.rvar b)
            .ok (composeSubstitutions rm s)
        | _, _ => .ok s
  termination_by structural fuel _ _ _ _ => fuel

end

/-- The equality-constraint pass of `solveConstraints`: apply the
accumulated substitution to both sides, unify, compose. -/
def solveEqs : Nat → List Constraint → Subst → Except String Subst
  | _, [], s => .ok s
  | fuel, c :: rest, s => do
      let mgu ← unify fuel (applySubstitution s c.left) (applySubstitution s c.right)
      solveEqs fuel rest (composeSubstitutions mgu s)

/-- Ids of the type variables that field-access constraints resolve to
after substitution, in first-occurrence order (the grouping map's key
order). -/
def fieldCGroupIds (s : Subst) (fcs : List FieldC) : List Nat :=
  fcs.foldl
    (fun acc fc =>
      match applySubstitution s fc.objectType with
      | .tvar id => addId acc id
      | _ => acc)
    []

/-- The merged field requirements of one group: later constraints on the
same field name overwrite earlier ones (`Map.set`). -/
def fieldCGroupFields (s : Subst) (fcs : List FieldC) (id : Nat) : List (String × Ty) :=
  fcs.foldl
    (fun acc fc =>
      match applySubstitution s fc.objectType with
      | .tvar i =>
          if i = id then setField acc fc.fieldName (applySubstitution s fc.fieldType) else acc
      | _ => acc)
    []
where
  setField (fields : List (String × Ty)) (k : String) (t : Ty) : List (String × Ty) :=
    match fields with
    | [] => [(k, t)]
    | (k0, t0) :: rest =>
        if k0 = k then (k0, t) :: rest else (k0, t0) :: setField rest k t

/-- The field-access pass: for each group whose substituted object type is
still a type variable, synthesize a record with the required fields and a
fresh row tail and unify the variable against it. -/
def solveFieldCs (fuel : Nat) (fcs : List FieldC) : List Nat → Subst → Nat →
    Except String (Subst × Nat)
  | [], s, rv => .ok (s, rv)
  | id :: rest, s, rv => do
      let required := fieldCGroupFields s fcs id
      let expected := Ty.object required (some rv)
      let mgu ← unify fuel (.tvar id) expected
      solveFieldCs fuel fcs rest (composeSubstitutions mgu s) (rv + 1)

/-- `solveConstraints` (`src/infer.ts` lines 759-811): equality constraints
first, then grouped field-access constraints; both lists are cleared. -/
def solveConstraints (fuel : Nat) (st : InferSt) : Except String (Subst × InferSt) := do
  let s ← solveEqs fuel st.constraints []
  let groups := fieldCGroupIds s st.fieldCs
  let (s2, rv2) ← solveFieldCs fuel st.fieldCs groups s st.rv
  .ok (s2, { st with constraints := [], fieldCs := [], rv := rv2 })

/-- `typeExpressionToType`: translate a surface type annotation.  Each named
type variable draws a fresh inference variable (two uses of the same name
instantiate independently, as in the source). -/
def typeExpressionToType : TyExpr → Nat → Except String (Ty × Nat)
  | .prim p, tv =>
      match p with
      | "number" => .ok (.number, tv)
      | "string" => .ok (.string, tv)
      | "boolean" => .ok (.boolean, tv)
      | "null" => .ok (.null, tv)
      | "undefined" => .ok (.undefined, tv)
      | "unit" => .ok (.unit, tv)
      | _ => .error "Unknown primitive type"
  | .arrayT e, tv => do
      let (t, tv1) ← typeExpressionToType e tv
      .ok (.array t, tv1)
  | .dictT k v, tv => do
      let (kt, tv1) ← typeExpressionToType k tv
      let (vt, tv2) ← typeExpressionToType v tv1
      .ok (.dict kt vt, tv2)
  | .fnT ps r, tv => do
      let (ps2, tv1) ← typeExprList ps tv
      let (rt, tv2) ← typeExpressionToType r tv1
      .ok (.fn ps2 rt, tv2)
  | .tvarT _, tv => .ok (.tvar tv, tv + 1)
where
  typeExprList : List TyExpr → Nat → Except String (List Ty × Nat)
    | [], tv => .ok ([], tv)
    | t :: rest, tv => do
        let (t2, tv1) ← typeExpressionToType t tv
        let (ts, tv2) ← typeExprList rest tv1
        .ok (t2 :: ts, tv2)

/-- `Map.set` on a row's fields: overwrite in place or append. -/
def setFieldRow (fields : List (String × Ty)) (k : String) (t : Ty) : List (String × Ty) :=
  match fields with
  | [] => [(k, t)]
  | (k0, t0) :: rest =>
      if k0 = k then (k0, t) :: rest else (k0, t0) :: setFieldRow rest k t

mutual

/-- `enforceSubtype` (`src/infer.ts`): emit constraints for the directional
relation `a ≤ b`.  Identical types are a no-op; functions are contravariant
in parameters and covariant in the return type; records use width
subtyping; arrays and dictionaries fall back to invariant equality; every
remaining combination — including the type-variable cases the source lists
separately — emits the equality constraint `a = b`. -/
def enforceSubtype : Nat → Ty → Ty → InferSt → Except String InferSt
  | 0, _, _, _ => .error "out of fuel"
  | fuel + 1, a, b, st =>
    if typesEqual a b then .ok st else
    match a, b with
    | .fn p1 r1, .fn p2 r2 =>
        if p1.length ≠ p2.length then .error "Function arity mismatch"
        else do
          let st1 ← enforceParamsContra fuel p1 p2 st
          enforceSubtype fuel r1 r2 st1
    | .object f1 _, .object f2 _ => enforceObjWidth fuel f1 f2 st
    | .array a1, .array b1 => .ok (addConstraint st a1 b1)
    | .dict k1 v1, .dict k2 v2 => .ok (addConstraint (addConstraint st k1 k2) v1 v2)
    | a, b => .ok (addConstraint st a b)
  termination_by structural fuel _ _ _ => fuel

/-- Contravariant parameter pass: `b.param ≤ a.param` for each pair. -/
def enforceParamsContra : Nat → List Ty → List Ty → InferSt → Except String InferSt
  | 0, _, _, _ => .error "out of fuel"
  | _ + 1, [], _, st => .ok st
  | _ + 1, _ :: _, [], st => .ok st
  | fuel + 1, a :: as1, b :: bs, st => do
      let st1 ← enforceSubtype fuel b a st
      enforceParamsContra fuel as1 bs st1
  termination_by structural fuel _ _ _ => fuel

/-- Width pass: every field required by `b` must exist in `a` and be a
subtype; extra fields of `a` are allowed. -/
def enforceObjWidth : Nat → List (String × Ty) → List (String × Ty) → InferSt →
    Except String InferSt
  | 0, _, _, _ => .error "out of fuel"
  | _ + 1, _, [], st => .ok st
  | fuel + 1, f1, (key, bField) :: rest, st =>
      match lookupField f1 key with
      | none => .error ("missing fields: " ++ key)
      | some aField => do
          let st1 ← enforceSubtype fuel aField bField st
          enforceObjWidth fuel f1 rest st1
  termination_by structural fuel _ _ _ => fuel

end

/-- The `aField.kind === "ObjectType" && bField.kind === "ObjectType"`
test of `joinObjectTypes`, returning the two field lists when it holds. -/
def bothObjectFields : Ty → Ty → Option (List (String × Ty) × List (String × Ty))
  | .object af _, .object bf _ => some (af, bf)
  | _, _ => none

mutual

/-- `joinObjectTypes` (`src/infer.ts` lines 516-534): structurally join two
record types by their common fields, recursing when both field types are
records and emitting an equality constraint (keeping the first type)
otherwise.  The result is a closed row. -/
def joinObjectTypes : Nat → List (String × Ty) → List (String × Ty) → InferSt →
    Except String (Ty × InferSt)
  | 0, _, _, _ => .error "out of fuel"
  | fuel + 1, f1, f2, st => do
      let keys := (fieldNames f1).filter (fun k => k ∈ fieldNames f2)
      let (fields, st1) ← joinFieldsLoop fuel f1 f2 keys st
      .ok (.object fields none, st1)
  termination_by structural fuel _ _ _ => fuel

def joinFieldsLoop : Nat → List (String × Ty) → List (String × Ty) → List String →
    InferSt → Except String (List (String × Ty) × InferSt)
  | 0, _, _, _, _ => .error "out of fuel"
  | _ + 1, _, _, [], st => .ok ([], st)
  | fuel + 1, f1, f2, key :: rest, st =>
      match lookupField f1 key, lookupField f2 key with
      | some aField, some bField =>
          match bothObjectFields aField bField with
          | some (af, bf) => do
              let (nested, st1) ← joinObjectTypes fuel af bf st
              let (others, st2) ← joinFieldsLoop fuel f1 f2 rest st1
              .ok ((key, nested) :: others, st2)
          | none => do
              let (others, st1) ←
                joinFieldsLoop fuel f1 f2 rest (addConstraint st aField bField)
              .ok ((key, aField) :: others, st1)
      | _, _ => joinFieldsLoop fuel f1 f2 rest st
  termination_by structural fuel _ _ _ _ => fuel

end

/-- The branch-combination step of `inferIfExpression` (`src/infer.ts`
lines 412-457) once both branch types are known: when both are records
with at least one common field, return the structural join; otherwise emit
an equality constraint between the branch types and return the then-type. -/
def inferIfJoin (fuel : Nat) (thenT elseT : Ty) (st : InferSt) :
    Except String (Ty × InferSt) :=
  match thenT, elseT with
  | .object f1 _, .object f2 _ => do
      let (joined, st1) ← joinObjectTypes fuel f1 f2 st
      match joined with
      | .object [] _ =>
          -- no common fields: the loop emitted nothing; keep the previous
          -- behaviour (equality constraint between the branch types)
          .ok (thenT, addConstraint st1 thenT elseT)
      | _ => .ok (joined, st1)
  | _, _ => .ok (thenT, addConstraint st thenT elseT)

/-- An association lookup shared by the binding-group maps. -/
def assocGet {α : Type} (l : List (String × α)) (k : String) : Option α :=
  match l with
  | [] => none
  | (k0, v) :: rest => if k0 = k then some v else assocGet rest k

/-- `Map.set` keyed by strings. -/
def assocSet {α : Type} (l : List (String × α)) (k : String) (v : α) :
    List (String × α) :=
  match l with
  | [] => [(k, v)]
  | (k0, v0) :: rest =>
      if k0 = k then (k0, v) :: rest else (k0, v0) :: assocSet rest k v

mutual

/-- `inferExpression` (`src/infer.ts`): infer a type, accumulating
constraints in the state.  The environment is threaded because the source
passes the `Map` by reference and a variable declaration mutates it;
constructs that build a private copy (`new Map(env)`) pass the copy down
and discard its mutations. -/
def inferExpr : Nat → Expr → TypeEnv → InferSt → Except String (Ty × TypeEnv × InferSt)
  | 0, _, _, _ => .error "out of fuel"
  | fuel + 1, e, env, st =>
    match e with
    | .numLit _ => .ok (.number, env, st)
    | .strLit _ => .ok (.string, env, st)
    | .boolLit _ => .ok (.boolean, env, st)
    | .nullLit => .ok (.null, env, st)
    | .undefLit => .ok (.undefined, env, st)
    | .ident name =>
        match envGetT env name with
        | none => .error ("Undefined variable: " ++ name)
        | some sc =>
            let (t, tv1) := instantiate sc st.tv
            .ok (t, env, { st with tv := tv1 })
    | .arrayE [] =>
        let (t, st1) := freshTV st
        .ok (.array t, env, st1)
    | .arrayE (e0 :: rest) => do
        let (firstT, env1, st1) ← inferExpr fuel e0 env st
        let (env2, st2) ← inferArrayRest fuel firstT rest env1 st1
        .ok (.array firstT, env2, st2)
    | .objectE props => do
        let (fields, env1, st1) ← inferProps fuel props [] env st
        -- object literals are closed: no row variable
        .ok (.object fields none, env1, st1)
    | .fnE params retAnn bodyE => do
        let (paramTys, newEnv, st1) ← inferParams fuel params env st
        let (bodyT, _, st2) ← inferExpr fuel bodyE newEnv st1
        match retAnn with
        | some ann => do
            let (declared, tv1) ← typeExpressionToType ann st2.tv
            .ok (.fn paramTys bodyT, env,
                 addConstraint { st2 with tv := tv1 } bodyT declared)
        | none => .ok (.fn paramTys bodyT, env, st2)
    | .callE callee args => do
        let (funcT, env1, st1) ← inferExpr fuel callee env st
        let (argTys, env2, st2) ← inferList fuel args env1 st1
        let (retT, st3) := freshTV st2
        let st4 ← enforceSubtype fuel funcT (.fn argTys retT) st3
        .ok (retT, env2, st4)
    | .binE op l r => do
        let (lt, env1, st1) ← inferExpr fuel l env st
        let (rt, env2, st2) ← inferExpr fuel r env1 st1
        match op with
        | "+" | "-" | "*" | "/" | "%" =>
            .ok (.number, env2, addConstraint (addConstraint st2 lt .number) rt .number)
        | "==" | "!=" =>
            .ok (.boolean, env2, addConstraint st2 lt rt)
        | "<" | "<=" | ">" | ">=" =>
            .ok (.boolean, env2, addConstraint (addConstraint st2 lt .number) rt .number)
        | "&&" | "||" =>
            .ok (.boolean, env2, addConstraint (addConstraint st2 lt .boolean) rt .boolean)
        | _ => .error "Unknown binary operator"
    | .unE op e0 => do
        let (t, env1, st1) ← inferExpr fuel e0 env st
        match op with
        | "!" => .ok (.boolean, env1, addConstraint st1 t .boolean)
        | "-" => .ok (.number, env1, addConstraint st1 t .number)
        | _ => .error "Unknown unary operator"
    | .ifE cond thenB elseB => do
        let (condT, env1, st1) ← inferExpr fuel cond env st
        let st2 := addConstraint st1 condT .boolean
        let (thenT, env2, st3) ← inferExpr fuel thenB env1 st2
        match elseB with
        | some elseE => do
            let (elseT, env3, st4) ← inferExpr fuel elseE env2 st3
            let (t, st5) ← inferIfJoin fuel thenT elseT st4
            .ok (t, env3, st5)
        | none =>
            .ok (.unit, env2, addConstraint st3 thenT .unit)
    | .blockE stmts ret => do
        -- the block works on a copy of the environment
        let (newEnv, st1) ← inferStmts fuel stmts env st
        let (t, _, st2) ← inferExpr fuel ret newEnv st1
        .ok (t, env, st2)
    | .letE bindings => do
        let (tys, env1, st1) ← inferBindingGroup fuel bindings env st
        match tys.getLast? with
        | some t => .ok (t, env1, st1)
        | none => .error "Let binding group must contain at least one binding"
    | .memberE obj prop => do
        let (objT, env1, st1) ← inferExpr fuel obj env st
        match objT with
        | .object fields rowVar =>
            (match lookupField fields prop with
             | some t => .ok (t, env1, st1)
             | none =>
                 match rowVar with
                 | some _ =>
                     let (p, st2) := freshTV st1
                     .ok (p, env1, st2)
                 | none => .error ("Property \x27" ++ prop ++ "\x27 does not exist on object type"))
        | .tvar id =>
            let (p, st2) := freshTV st1
            .ok (p, env1, addFieldC st2 (.tvar id) prop p)
        | _ =>
            let (p, st2) := freshTV st1
            let (rv, st3) := freshRV st2
            .ok (p, env1, addConstraint st3 objT (.object [(prop, p)] (some rv)))
    | .indexE arr idx => do
        let (containerT, env1, st1) ← inferExpr fuel arr env st
        let (indexT, env2, st2) ← inferExpr fuel idx env1 st1
        let (resultT, st3) := freshTV st2
        -- the source also treats a dictionary-literal container as a
        -- dictionary access; the parser in this snapshot never produces
        -- dictionary literals, so only the string-literal-index test remains
        match idx with
        | .strLit _ =>
            .ok (resultT, env2, addConstraint st3 containerT (.dict indexT resultT))
        | _ =>
            .ok (resultT, env2,
                 addConstraint (addConstraint st3 containerT (.array resultT)) indexT .number)
    | .matchE disc cases => do
        let (discT, env1, st1) ← inferExpr fuel disc env st
        match cases with
        | [] => .error "Match expression must have at least one case"
        | c0 :: rest => do
            let (firstT, st2) ← inferMatchCase fuel c0 discT env1 st1
            let st3 ← inferCasesRest fuel rest discT firstT env1 st2
            .ok (firstT, env1, st3)
  termination_by structural fuel _ _ _ => fuel

/-- Sequential inference of call arguments / further statements. -/
def inferList : Nat → List Expr → TypeEnv → InferSt →
    Except String (List Ty × TypeEnv × InferSt)
  | 0, _, _, _ => .error "out of fuel"
  | _ + 1, [], env, st => .ok ([], env, st)
  | fuel + 1, e :: rest, env, st => do
      let (t, env1, st1) ← inferExpr fuel e env st
      let (ts, env2, st2) ← inferList fuel rest env1 st1
      .ok (t :: ts, env2, st2)
  termination_by structural fuel _ _ _ => fuel

/-- The tail of an array literal: each further element is inferred and
immediately constrained to the first element's type. -/
def inferArrayRest : Nat → Ty → List Expr → TypeEnv → InferSt →
    Except String (TypeEnv × InferSt)
  | 0, _, _, _, _ => .error "out of fuel"
  | _ + 1, _, [], env, st => .ok (env, st)
  | fuel + 1, firstT, e :: rest, env, st => do
      let (t, env1, st1) ← inferExpr fuel e env st
      inferArrayRest fuel firstT rest env1 (addConstraint st1 firstT t)
  termination_by structural fuel _ _ _ _ => fuel

/-- Record-literal fields, built left-to-right with `Map.set`. -/
def inferProps : Nat → List (String × Expr) → List (String × Ty) → TypeEnv → InferSt →
    Except String (List (String × Ty) × TypeEnv × InferSt)
  | 0, _, _, _, _ => .error "out of fuel"
  | _ + 1, [], acc, env, st => .ok (acc, env, st)
  | fuel + 1, (key, value) :: rest, acc, env, st => do
      let (t, env1, st1) ← inferExpr fuel value env st
      inferProps fuel rest (setFieldRow acc key t) env1 st1
  termination_by structural fuel _ _ _ _ => fuel

/-- Function parameters: annotated type or fresh variable, bound into the
(copied) environment. -/
def inferParams : Nat → List (String × Option TyExpr) → TypeEnv → InferSt →
    Except String (List Ty × TypeEnv × InferSt)
  | 0, _, _, _ => .error "out of fuel"
  | _ + 1, [], env, st => .ok ([], env, st)
  | fuel + 1, (name, ann) :: rest, env, st => do
      let (paramT, st1) ← (match ann with
        | some a => do
            let (t, tv1) ← typeExpressionToType a st.tv
            .ok (t, { st with tv := tv1 })
        | none => .ok (freshTV st))
      let env1 := envSetT env name ⟨[], paramT⟩
      let (ts, env2, st2) ← inferParams fuel rest env1 st1
      .ok (paramT :: ts, env2, st2)
  termination_by structural fuel _ _ _ => fuel

/-- `inferBlockExpression`'s statement pass: a let statement types a
binding group, an expression statement is inferred for its constraints and
discarded. -/
def inferStmts : Nat →
    List (Sum (List (String × Option TyExpr × Expr)) Expr) → TypeEnv → InferSt →
    Except String (TypeEnv × InferSt)
  | 0, _, _, _ => .error "out of fuel"
  | _ + 1, [], env, st => .ok (env, st)
  | fuel + 1, .inl bindings :: rest, env, st => do
      let (_, env1, st1) ← inferBindingGroup fuel bindings env st
      inferStmts fuel rest env1 st1
  | fuel + 1, .inr e :: rest, env, st => do
      let (_, env1, st1) ← inferExpr fuel e env st
      inferStmts fuel rest env1 st1
  termination_by structural fuel _ _ _ => fuel

/-- `inferBindingGroup` (`src/infer.ts` lines 557-600): pre-declare every
binding with its annotated type or a fresh variable, then infer each
initializer under the extended environment, constrain it to the assumed
type, apply directional subtyping against an annotation, and generalize. -/
def inferBindingGroup : Nat → List (String × Option TyExpr × Expr) → TypeEnv → InferSt →
    Except String (List Ty × TypeEnv × InferSt)
  | 0, _, _, _ => .error "out of fuel"
  | fuel + 1, bindings, env, st =>
    if bindings.isEmpty then
      .error "Let binding group must contain at least one binding"
    else do
      let (assumed, annotated, env1, st1) ← preDeclare fuel bindings [] [] env st
      bindingMain fuel bindings assumed annotated env1 st1
  termination_by structural fuel _ _ _ => fuel

/-- The pre-declaration pass over a binding group. -/
def preDeclare : Nat → List (String × Option TyExpr × Expr) →
    List (String × Ty) → List (String × Option Ty) → TypeEnv → InferSt →
    Except String (List (String × Ty) × List (String × Option Ty) × TypeEnv × InferSt)
  | 0, _, _, _, _, _ => .error "out of fuel"
  | _ + 1, [], assumed, annotated, env, st => .ok (assumed, annotated, env, st)
  | fuel + 1, (name, ann, _) :: rest, assumed, annotated, env, st => do
      let (annT, st1) ← (match ann with
        | some a => do
            let (t, tv1) ← typeExpressionToType a st.tv
            .ok (some t, { st with tv := tv1 })
        | none => .ok ((none : Option Ty), st))
      let (assumedT, st2) := match annT with
        | some t => (t, st1)
        | none => freshTV st1
      let env1 := envSetT env name ⟨[], assumedT⟩
      preDeclare fuel rest (assocSet assumed name assumedT)
        (assocSet annotated name annT) env1 st2
  termination_by structural fuel _ _ _ _ _ => fuel

/-- The main pass over a binding group. -/
def bindingMain : Nat → List (String × Option TyExpr × Expr) →
    List (String × Ty) → List (String × Option Ty) → TypeEnv → InferSt →
    Except String (List Ty × TypeEnv × InferSt)
  | 0, _, _, _, _, _ => .error "out of fuel"
  | _ + 1, [], _, _, env, st => .ok ([], env, st)
  | fuel + 1, (name, _, init) :: rest, assumed, annotated, env, st => do
      match assocGet assumed name with
      | none => .error "binding was not pre-declared"
      | some assumedT => do
          let (actualT, env1, st1) ← inferExpr fuel init env st
          let st2 := addConstraint st1 actualT assumedT
          let annT := (assocGet annotated name).getD none
          let (finalT, st3) ← (match annT with
            | some a => do
                let st3 ← enforceSubtype fuel actualT a st2
                .ok (a, st3)
            | none => .ok (actualT, st2))
          let sc := generalize env1 finalT
          let env2 := envSetT env1 name sc
          let (ts, env3, st4) ← bindingMain fuel rest assumed annotated env2 st3
          .ok (finalT :: ts, env3, st4)
  termination_by structural fuel _ _ _ _ _ => fuel

/-- `inferMatchCase`: bind pattern variables in a copy of the environment,
require a guard to be boolean, and infer the body. -/
def inferMatchCase : Nat → Pattern × Option Expr × Expr → Ty → TypeEnv → InferSt →
    Except String (Ty × InferSt)
  | 0, _, _, _, _ => .error "out of fuel"
  | fuel + 1, (pat, guard, bodyE), discT, env, st => do
      let (env1, st1) ← inferPattern fuel pat discT env st
      let (env2, st2) ← (match guard with
        | some g => do
            let (gt, envG, stG) ← inferExpr fuel g env1 st1
            .ok (envG, addConstraint stG gt .boolean)
        | none => .ok (env1, st1))
      let (bt, _, st3) ← inferExpr fuel bodyE env2 st2
      .ok (bt, st3)
  termination_by structural fuel _ _ _ _ => fuel

/-- The remaining cases of a match expression: each body type is
constrained to the first case's type. -/
def inferCasesRest : Nat → List (Pattern × Option Expr × Expr) → Ty → Ty → TypeEnv →
    InferSt → Except String InferSt
  | 0, _, _, _, _, _ => .error "out of fuel"
  | _ + 1, [], _, _, _, st => .ok st
  | fuel + 1, c :: rest, discT, firstT, env, st => do
      let (ct, st1) ← inferMatchCase fuel c discT env st
      inferCasesRest fuel rest discT firstT env (addConstraint st1 firstT ct)
  termination_by structural fuel _ _ _ _ _ => fuel

/-- `inferPattern`: a literal pattern constrains the discriminant to the
literal's type; an identifier pattern generalizes the discriminant type
into the pattern scope; a wildcard adds nothing. -/
def inferPattern : Nat → Pattern → Ty → TypeEnv → InferSt →
    Except String (TypeEnv × InferSt)
  | 0, _, _, _, _ => .error "out of fuel"
  | fuel + 1, pat, discT, env, st =>
    match pat with
    | .lit v => do
        let (litT, env1, st1) ← inferExpr fuel (litToExpr v) env st
        .ok (env1, addConstraint st1 discT litT)
    | .identP name => .ok (envSetT env name (generalize env discT), st)
    | .wild => .ok (env, st)
  termination_by structural fuel _ _ _ _ => fuel

end

/-- `applySubstitutionToEnv`: substitute through every scheme body. -/
def applySubstitutionToEnv (s : Subst) (env : TypeEnv) : TypeEnv :=
  env.map (fun p => (p.1, ⟨p.2.typeVars, applySubstitution s p.2.type⟩))

/-- After a top-level declaration, re-resolve each bound scheme under the
solved substitution. -/
def resolveDeclBindings (sub : Subst) :
    List (String × Option TyExpr × Expr) → TypeEnv → TypeEnv
  | [], env => env
  | (name, _, _) :: rest, env =>
      let env1 := match envGetT env name with
        | some sc => envSetT env name ⟨sc.typeVars, applySubstitution sub sc.type⟩
        | none => env
      resolveDeclBindings sub rest env1

/-- `infer` (`src/infer.ts` lines 85-115): infer each top-level item, solve
the accumulated constraints immediately, apply the substitution to the
environment, and re-resolve declared bindings. -/
def inferTop : Nat → List Expr → TypeEnv → InferSt → Except String TypeEnv
  | _, [], env, _ => .ok env
  | 0, _ :: _, _, _ => .error "out of fuel"
  | fuel + 1, node :: rest, env, st => do
      let (_, env1, st1) ← inferExpr fuel node env st
      let (sub, st2) ← solveConstraints fuel st1
      let env2 := applySubstitutionToEnv sub env1
      let env3 := match node with
        | .letE bindings => resolveDeclBindings sub bindings env2
        | _ => env2
      inferTop fuel rest env3 st2

/-- `inferAndSolve`: the public driver, starting from a caller-supplied
base environment (`createInitialEnv` in the theorems below). -/
def inferAndSolve (fuel : Nat) (prog : List Expr) (env : TypeEnv) :
    Except String TypeEnv :=
  inferTop fuel prog env .init

/-! ## The builtin registry (`src/builtins.ts`)

`createInitialEnv` seeds the type environment with one polymorphic scheme
per builtin.  The schemes below transcribe `builtinFunctions` in map order;
the type-variable ids reproduce the module's own counter, which starts at
10000 precisely to avoid colliding with the inference counter: `a` = 10000,
`b` = 10001, then one id per scheme-local variable in declaration order. -/

def initialTypeEnv : TypeEnv :=
  [ ("length", ⟨[10000], .fn [.array (.tvar 10000)] .number⟩)
  , ("head", ⟨[10000], .fn [.array (.tvar 10000)] (.tvar 10000)⟩)
  , ("tail", ⟨[10000], .fn [.array (.tvar 10000)] (.array (.tvar 10000))⟩)
  , ("push", ⟨[10000], .fn [.array (.tvar 10000), .tvar 10000] (.array (.tvar 10000))⟩)
  , ("empty", ⟨[10000], .fn [.array (.tvar 10000)] .boolean⟩)
  , ("range", ⟨[], .fn [.number, .number] (.array .number)⟩)
  , ("sum", ⟨[], .fn [.array .number] .number⟩)
  , ("product", ⟨[], .fn [.array .number] .number⟩)
  , ("flatten", ⟨[10002], .fn [.array (.array (.tvar 10002))] (.array (.tvar 10002))⟩)
  , ("unique", ⟨[10003], .fn [.array (.tvar 10003)] (.array (.tvar 10003))⟩)
  , ("chunk", ⟨[10004], .fn [.array (.tvar 10004), .number] (.array (.array (.tvar 10004)))⟩)
  , ("zip", ⟨[10005, 10006],
      .fn [.array (.tvar 10005), .array (.tvar 10006)]
        (.array (.object [("first", .tvar 10005), ("second", .tvar 10006)] none))⟩)
  , ("dictKeys", ⟨[10007, 10008], .fn [.dict (.tvar 10007) (.tvar 10008)] (.array (.tvar 10007))⟩)
  , ("dictValues", ⟨[10009, 10010], .fn [.dict (.tvar 10009) (.tvar 10010)] (.array (.tvar 10010))⟩)
  , ("dictEntries", ⟨[10011, 10012],
      .fn [.dict (.tvar 10011) (.tvar 10012)]
        (.array (.object [("key", .tvar 10011), ("value", .tvar 10012)] none))⟩)
  , ("dictFromEntries", ⟨[10013, 10014],
      .fn [.array (.object [("key", .tvar 10013), ("value", .tvar 10014)] none)]
        (.dict (.tvar 10013) (.tvar 10014))⟩)
  , ("dictMerge", ⟨[10015, 10016],
      .fn [.dict (.tvar 10015) (.tvar 10016), .dict (.tvar 10015) (.tvar 10016)]
        (.dict (.tvar 10015) (.tvar 10016))⟩)
  , ("dictHas", ⟨[10017, 10018], .fn [.dict (.tvar 10017) (.tvar 10018), .tvar 10017] .boolean⟩)
  , ("dictSet", ⟨[10019, 10020],
      .fn [.dict (.tvar 10019) (.tvar 10020), .tvar 10019, .tvar 10020]
        (.dict (.tvar 10019) (.tvar 10020))⟩)
  , ("dictDelete", ⟨[10021, 10022],
      .fn [.dict (.tvar 10021) (.tvar 10022), .tvar 10021] (.dict (.tvar 10021) (.tvar 10022))⟩)
  , ("dictSize", ⟨[10023, 10024], .fn [.dict (.tvar 10023) (.tvar 10024)] .number⟩)
  , ("concat", ⟨[], .fn [.string, .string] .string⟩)
  , ("substring", ⟨[], .fn [.string, .number, .number] .string⟩)
  , ("strlen", ⟨[], .fn [.string] .number⟩)
  , ("print", ⟨[10000], .fn [.tvar 10000] .unit⟩)
  , ("println", ⟨[10000], .fn [.tvar 10000] .unit⟩)
  , ("readText", ⟨[], .fn [.string] .string⟩)
  , ("writeText", ⟨[], .fn [.string, .string] .unit⟩)
  , ("sqrt", ⟨[], .fn [.number] .number⟩)
  , ("abs", ⟨[], .fn [.number] .number⟩)
  , ("floor", ⟨[], .fn [.number] .number⟩)
  , ("ceil", ⟨[], .fn [.number] .number⟩)
  , ("toString", ⟨[10000], .fn [.tvar 10000] .string⟩)
  , ("toNumber", ⟨[], .fn [.string] .number⟩)
  ]

/-! ## Runtime values and environments (the evaluator in `src/cli.ts`)

Runtime values mirror `RuntimeValue`.  A closure records its parameter
names, body and captured environment; a builtin is its registry entry (its
native implementation lives outside the language core and no verified
claim invokes one).  The environment chain is modelled as a store of
frames addressed by index, with `extend` appending a child frame — this
reproduces the reference semantics of the mutable `Environment` class,
including the fact that a pattern binding mutates the frame it is handed. -/

inductive Value where
  | num (n : JNum)
  | str (s : String)
  | bool (b : Bool)
  | null
  | undef
  | arr (elems : List Value)
  | obj (fields : List (String × Value))
  | closure (params : List String) (body : Expr) (env : Nat)
  | builtin (name : String)
deriving Repr

structure Frame where
  bindings : List (String × Value)
  parent : Option Nat
deriving Repr

abbrev Store := List Frame

def assocGetV (l : List (String × Value)) (k : String) : Option Value :=
  match l with
  | [] => none
  | (k0, v) :: rest => if k0 = k then some v else assocGetV rest k

def assocSetV (l : List (String × Value)) (k : String) (v : Value) :
    List (String × Value) :=
  match l with
  | [] => [(k, v)]
  | (k0, v0) :: rest =>
      if k0 = k then (k0, v) :: rest else (k0, v0) :: assocSetV rest k v

/-- `Environment.define`: write into the addressed frame's bindings. -/
def storeDefine (s : Store) (fid : Nat) (name : String) (v : Value) : Store :=
  match s.get? fid with
  | some fr => s.set fid { fr with bindings := assocSetV fr.bindings name v }
  | none => s

/-- `Environment.extend`: a fresh child frame. -/
def storeExtend (s : Store) (parent : Nat) : Store × Nat :=
  (s ++ [⟨[], some parent⟩], s.length)

/-- `Environment.get`.  The source retrieves with `Map.get` and tests
`value !== undefined`, so a binding holding the undefined value is
indistinguishable from an absent binding: both fall through to the parent
frame, and the root raises the undefined-variable error (`none` here). -/
def lookupVar : Nat → Store → Nat → String → Option Value
  | 0, _, _, _ => none
  | gas + 1, s, fid, name =>
    match s.get? fid with
    | none => none
    | some fr =>
        let next := fun (_ : Unit) =>
          match fr.parent with
          | some p => lookupVar gas s p name
          | none => none
        match assocGetV fr.bindings name with
        | some .undef => next ()
        | some v => some v
        | none => next ()

/-- JavaScript `typeof` on runtime values. -/
def jsTypeof : Value → String
  | .num _ => "number"
  | .str _ => "string"
  | .bool _ => "boolean"
  | .null => "object"
  | .undef => "undefined"
  | .arr _ => "object"
  | .obj _ => "object"
  | .closure _ _ _ => "object"
  | .builtin _ => "object"


mutual

/-- JavaScript `String(...)` coercion, used by `+` on mixed operands. -/
def jsString : Value → String
  | .num n => jnumToString n
  | .str s => s
  | .bool b => if b then "true" else "false"
  | .null => "null"
  | .undef => "undefined"
  | .arr xs => jsStringElems xs
  | .obj _ => "[object Object]"
  | .closure _ _ _ => "[object Object]"
  | .builtin _ => "[object Object]"

/-- `Array.prototype.toString`: comma-joined elements, with null and
undefined elements rendered empty. -/
def jsStringElems : List Value → String
  | [] => ""
  | [v] => jsStringElem v
  | v :: rest => jsStringElem v ++ "," ++ jsStringElems rest

def jsStringElem : Value → String
  | .null => ""
  | .undef => ""
  | v => jsString v

end

mutual

/-- `isEqual` (the evaluator in `src/cli.ts`): a `typeof` guard, pairwise
array comparison, key-by-key object comparison (an absent key reads as
undefined, and an array meeting a record enumerates its index strings),
and primitive identity otherwise.  Function values reaching the object
branch enumerate fields holding AST and environment objects that live
outside the value domain; no verified claim compares function values, and
such comparisons are modelled as false. -/
def isEqual (l r : Value) : Bool :=
  if jsTypeof l != jsTypeof r then false
  else
    match l, r with
    | .arr as1, .arr bs => as1.length == bs.length && isEqualPairs as1 bs
    | .null, .null => true
    | .null, _ => false
    | _, .null => false
    | .num a, .num b => jeq a b
    | .str a, .str b => a == b
    | .bool a, .bool b => a == b
    | .undef, .undef => true
    | .obj lf, .obj rf => lf.length == rf.length && isEqualObjFields lf rf
    | .arr as1, .obj rf => as1.length == rf.length && isEqualArrObj as1 0 rf
    | .obj lf, .arr bs => lf.length == bs.length && isEqualObjArr lf bs
    | _, _ => false
  termination_by structural l

def isEqualObjFields : List (String × Value) → List (String × Value) → Bool
  | [], _ => true
  | (k, v) :: rest, rf =>
      isEqual v ((assocGetV rf k).getD .undef) && isEqualObjFields rest rf
  termination_by structural l _ => l

def isEqualArrObj : List Value → Nat → List (String × Value) → Bool
  | [], _, _ => true
  | v :: rest, i, rf =>
      isEqual v ((assocGetV rf (toString i)).getD .undef) && isEqualArrObj rest (i + 1) rf
  termination_by structural l _ _ => l

def isEqualObjArr : List (String × Value) → List Value → Bool
  | [], _ => true
  | (k, v) :: rest, bs =>
      isEqual v ((match k.toNat? with
                  | some i => bs.get? i
                  | none => none).getD .undef) && isEqualObjArr rest bs
  termination_by structural l _ => l

def isEqualPairs : List Value → List Value → Bool
  | [], _ => true
  | _, [] => true
  | a :: as1, b :: bs => isEqual a b && isEqualPairs as1 bs
  termination_by structural l _ => l

end

/-- Truthiness: null and undefined are falsy, booleans are themselves,
numbers are truthy iff non-zero, strings iff non-empty, everything else is
truthy. -/
def isTruthy : Value → Bool
  | .null => false
  | .undef => false
  | .bool b => b
  | .num n => !jeq n 0
  | .str s => s.length > 0
  | _ => true

/-- `isFunction`: the callee carries the `function` kind tag. -/
def isFunctionV : Value → Bool
  | .closure _ _ _ => true
  | .builtin _ => true
  | _ => false


/-- The names registered in `builtinFunctions`, in map order; the global
environment binds each to its builtin value. -/
def builtinNames : List String :=
  ["length", "head", "tail", "push", "empty", "range", "sum", "product",
   "flatten", "unique", "chunk", "zip", "dictKeys", "dictValues",
   "dictEntries", "dictFromEntries", "dictMerge", "dictHas", "dictSet",
   "dictDelete", "dictSize", "concat", "substring", "strlen", "print",
   "println", "readText", "writeText", "sqrt", "abs", "floor", "ceil",
   "toString", "toNumber"]

/-- `createGlobalEnvironment`: frame 0 holds the builtins. -/
def initialStore : Store :=
  [⟨builtinNames.map (fun n => (n, Value.builtin n)), none⟩]

/-- Bind parameters to arguments in a frame (`funcEnv.define` loop). -/
def bindParams (s : Store) (fid : Nat) : List String → List Value → Store
  | [], _ => s
  | _, [] => s
  | p :: ps, a :: as1 => bindParams (storeDefine s fid p a) fid ps as1

/-- The runtime error messages used verbatim by the evaluator. -/
def propertyMissing (prop : String) : String :=
  "Property \x27" ++ prop ++ "\x27 does not exist"

/-- The own property names of `Object.prototype` in the host JavaScript
runtime.  Records are plain objects and member access reads
`obj[expr.property]`, so when a record has no own field under one of these
names the lookup walks the prototype chain and finds the inherited member,
which is never `undefined` (eleven native functions, and the prototype
object itself for `__proto__`). -/
def objectProtoMembers : List String :=
  ["constructor", "__defineGetter__", "__defineSetter__", "hasOwnProperty",
   "__lookupGetter__", "__lookupSetter__", "isPrototypeOf",
   "propertyIsEnumerable", "toString", "valueOf", "__proto__",
   "toLocaleString"]

mutual

/-- `evaluateExpression` (the evaluator in `src/cli.ts`).  The store of
frames is threaded to reproduce the mutation of `Environment` objects;
the frame index plays the role of the `env` reference. -/
def evalExpr : Nat → Expr → Nat → Store → Except String (Value × Store)
  | 0, _, _, _ => .error "out of fuel"
  | fuel + 1, e, env, s =>
    match e with
    | .numLit n => .ok (.num n, s)
    | .strLit str => .ok (.str str, s)
    | .boolLit b => .ok (.bool b, s)
    | .nullLit => .ok (.null, s)
    | .undefLit => .ok (.undef, s)
    | .ident name =>
        match lookupVar (s.length + 1) s env name with
        | some v => .ok (v, s)
        | none => .error ("Undefined variable: " ++ name)
    | .binE op l r => do
        -- both operands are evaluated before the operator dispatch
        let (lv, s1) ← evalExpr fuel l env s
        let (rv, s2) ← evalExpr fuel r env s1
        match op with
        | "+" =>
            (match lv, rv with
             | .num a, .num b => .ok (.num (jadd a b), s2)
             | _, _ =>
                 if jsTypeof lv == "string" || jsTypeof rv == "string" then
                   .ok (.str (jsString lv ++ jsString rv), s2)
                 else
                   .error ("Invalid operands for +: " ++ jsTypeof lv ++ " and " ++ jsTypeof rv))
        | "-" =>
            (match lv, rv with
             | .num a, .num b => .ok (.num (jsub a b), s2)
             | _, _ => .error "Operator - requires numeric operands")
        | "*" =>
            (match lv, rv with
             | .num a, .num b => .ok (.num (jmul a b), s2)
             | _, _ => .error "Operator * requires numeric operands")
        | "/" =>
            (match lv, rv with
             | .num a, .num b =>
                 if jeq b 0 then .error "Division by zero" else .ok (.num (jdiv a b), s2)
             | _, _ => .error "Operator / requires numeric operands")
        | "%" =>
            (match lv, rv with
             | .num a, .num b => .ok (.num (jmod a b), s2)
             | _, _ => .error "Operator % requires numeric operands")
        | ">" =>
            (match lv, rv with
             | .num a, .num b => .ok (.bool (jlt b a), s2)
             | _, _ => .error "Operator > requires numeric operands")
        | "<" =>
            (match lv, rv with
             | .num a, .num b => .ok (.bool (jlt a b), s2)
             | _, _ => .error "Operator < requires numeric operands")
        | ">=" =>
            (match lv, rv with
             | .num a, .num b => .ok (.bool (jle b a), s2)
             | _, _ => .error "Operator >= requires numeric operands")
        | "<=" =>
            (match lv, rv with
             | .num a, .num b => .ok (.bool (jle a b), s2)
             | _, _ => .error "Operator <= requires numeric operands")
        | "==" => .ok (.bool (isEqual lv rv), s2)
        | "!=" => .ok (.bool (!isEqual lv rv), s2)
        | "&&" => .ok (.bool (isTruthy lv && isTruthy rv), s2)
        | "||" => .ok (.bool (isTruthy lv || isTruthy rv), s2)
        | _ => .error ("Unknown binary operator: " ++ op)
    | .unE op e0 => do
        let (v, s1) ← evalExpr fuel e0 env s
        match op with
        | "-" =>
            (match v with
             | .num a => .ok (.num (jneg a), s1)
             | _ => .error ("Invalid operand for unary -: " ++ jsTypeof v))
        | "!" => .ok (.bool (!isTruthy v), s1)
        | _ => .error ("Unknown unary operator: " ++ op)
    | .callE callee args => do
        let (calleeV, s1) ← evalExpr fuel callee env s
        if !isFunctionV calleeV then .error "Cannot call non-function value"
        else do
          let (argVs, s2) ← evalList fuel args env s1
          match calleeV with
          | .builtin name =>
              -- native implementations are outside the verified core;
              -- no claim exercises a builtin call
              .error ("Builtin function error: " ++ name ++ " is not modelled")
          | .closure params bodyE cenv =>
              if argVs.length ≠ params.length then
                .error ("Function expects " ++ toString params.length ++
                        " arguments, got " ++ toString argVs.length)
              else
                let (s3, funcEnv) := storeExtend s2 cenv
                evalExpr fuel bodyE funcEnv (bindParams s3 funcEnv params argVs)
          | _ => .error "Cannot call non-function value"
    | .arrayE elems => do
        let (vs, s1) ← evalList fuel elems env s
        .ok (.arr vs, s1)
    | .objectE props => do
        let (fields, s1) ← evalProps fuel props [] env s
        .ok (.obj fields, s1)
    | .memberE objE prop => do
        let (objV, s1) ← evalExpr fuel objE env s
        match objV with
        | .null => .error "Cannot access property of null or undefined"
        | .undef => .error "Cannot access property of null or undefined"
        | .arr _ => .error "Cannot access property of non-object"
        | .obj fields =>
            -- `obj[expr.property]`: an own field (even one holding the
            -- undefined value) shadows the prototype chain; an absent
            -- field falls through to the inherited `Object.prototype`
            -- member when one exists.  The inherited member (a native
            -- function, or the prototype object for `__proto__`) is
            -- outside the interpreter's value domain and surfaces as an
            -- opaque function-like value; only its non-undefined-ness is
            -- observed by any verified statement.
            (match assocGetV fields prop with
             | some .undef => .error (propertyMissing prop)
             | some v => .ok (v, s1)
             | none =>
                 if prop ∈ objectProtoMembers then
                   .ok (.builtin ("Object.prototype." ++ prop), s1)
                 else .error (propertyMissing prop))
        | .closure _ _ _ =>
            -- a function value passes the typeof guard; its fields hold
            -- AST and environment objects outside the value domain and no
            -- claim reads them
            .error (propertyMissing prop)
        | .builtin _ => .error (propertyMissing prop)
        | _ => .error "Cannot access property of non-object"
    | .indexE arrE idxE => do
        let (arrV, s1) ← evalExpr fuel arrE env s
        let (idxV, s2) ← evalExpr fuel idxE env s1
        match arrV with
        | .arr elems =>
            (match idxV with
             | .num i =>
                 if jlt i 0 || jle (JNum.ofInt elems.length) i then
                   .error ("Array index out of bounds: " ++ jnumToString i)
                 else
                   match jtoInt? i with
                   | some idx => .ok ((elems.get? idx.toNat).getD .undef, s2)
                   | none =>
                       -- a fractional in-bounds index reads an absent element
                       .ok (.undef, s2)
             | _ => .error "Array index must be a number")
        | _ => .error "Cannot index non-array value"
    | .fnE params _ bodyE =>
        .ok (.closure (params.map Prod.fst) bodyE env, s)
    | .ifE cond thenB elseB => do
        let (condV, s1) ← evalExpr fuel cond env s
        if isTruthy condV then evalExpr fuel thenB env s1
        else
          match elseB with
          | some e0 => evalExpr fuel e0 env s1
          | none => .ok (.null, s1)
    | .blockE stmts ret => do
        let (s1, blockEnv) := storeExtend s env
        let s2 ← evalStmts fuel stmts blockEnv s1
        evalExpr fuel ret blockEnv s2
    | .matchE disc cases => do
        let (v, s1) ← evalExpr fuel disc env s
        evalCases fuel v cases env s1
    | .letE _ =>
        -- variable declarations are statements handled by the program and
        -- block walkers; the expression dispatcher never receives them
        .error "Unknown expression kind: VariableDeclaration"
  termination_by structural fuel _ _ _ => fuel

def evalList : Nat → List Expr → Nat → Store → Except String (List Value × Store)
  | 0, _, _, _ => .error "out of fuel"
  | _ + 1, [], _, s => .ok ([], s)
  | fuel + 1, e :: rest, env, s => do
      let (v, s1) ← evalExpr fuel e env s
      let (vs, s2) ← evalList fuel rest env s1
      .ok (v :: vs, s2)
  termination_by structural fuel _ _ _ => fuel

def evalProps : Nat → List (String × Expr) → List (String × Value) → Nat → Store →
    Except String (List (String × Value) × Store)
  | 0, _, _, _, _ => .error "out of fuel"
  | _ + 1, [], acc, _, s => .ok (acc, s)
  | fuel + 1, (key, value) :: rest, acc, env, s => do
      let (v, s1) ← evalExpr fuel value env s
      evalProps fuel rest (assocSetV acc key v) env s1
  termination_by structural fuel _ _ _ _ => fuel

/-- `evaluateStatement`: only let statements are dispatched; the parser's
expression statements hit the default branch and raise. -/
def evalStmts : Nat →
    List (Sum (List (String × Option TyExpr × Expr)) Expr) → Nat → Store →
    Except String Store
  | 0, _, _, _ => .error "out of fuel"
  | _ + 1, [], _, s => .ok s
  | fuel + 1, .inl bindings :: rest, env, s => do
      let s1 ← evalBindings fuel bindings env s
      evalStmts fuel rest env s1
  | _ + 1, .inr _ :: _, _, _ =>
      .error "Unknown statement kind: ExpressionStatement"
  termination_by structural fuel _ _ _ => fuel

/-- `evaluateLetStatement` / `evaluateVariableDeclaration`: evaluate the
initializer, then define the name.  No name is pre-defined before its
initializer runs. -/
def evalBindings : Nat → List (String × Option TyExpr × Expr) → Nat → Store →
    Except String Store
  | 0, _, _, _ => .error "out of fuel"
  | _ + 1, [], _, s => .ok s
  | fuel + 1, (name, _, init) :: rest, env, s => do
      let (v, s1) ← evalExpr fuel init env s
      evalBindings fuel rest env (storeDefine s1 env name v)
  termination_by structural fuel _ _ _ => fuel

/-- `evaluateMatchExpression` (`src/cli.ts` lines 602-612): try the cases
in order against the same environment the match is evaluated in; the first
whose pattern matches has its body evaluated.  A case's guard is never
consulted. -/
def evalCases : Nat → Value → List (Pattern × Option Expr × Expr) → Nat → Store →
    Except String (Value × Store)
  | 0, _, _, _, _ => .error "out of fuel"
  | _ + 1, _, [], _, _ => .error "No matching pattern in match expression"
  | fuel + 1, v, (pat, _, bodyE) :: rest, env, s => do
      let (matched, s1) ← matchesPattern fuel v pat env s
      if matched then evalExpr fuel bodyE env s1
      else evalCases fuel v rest env s1
  termination_by structural fuel _ _ _ _ => fuel

/-- `matchesPattern` (`src/cli.ts` lines 691-707): a literal pattern
compares by structural equality, an identifier pattern always matches and
defines the name directly in the environment it is handed, a wildcard
always matches. -/
def matchesPattern : Nat → Value → Pattern → Nat → Store →
    Except String (Bool × Store)
  | 0, _, _, _, _ => .error "out of fuel"
  | fuel + 1, v, pat, env, s =>
    match pat with
    | .lit litV => do
        let (lv, s1) ← evalExpr fuel (litToExpr litV) env s
        .ok (isEqual v lv, s1)
    | .identP name => .ok (true, storeDefine s env name v)
    | .wild => .ok (true, s)
  termination_by structural fuel _ _ _ _ => fuel

end

/-- `Evaluator.evaluate` (`src/cli.ts` lines 307-319): walk the program's
top-level items against the global environment; a variable declaration
defines its bindings without touching the result, any other expression
replaces it. -/
def evalProgramAux : Nat → List Expr → Value → Nat → Store →
    Except String (Value × Store)
  | _, [], acc, _, s => .ok (acc, s)
  | 0, _ :: _, _, _, _ => .error "out of fuel"
  | fuel + 1, node :: rest, acc, env, s =>
    match node with
    | .letE bindings => do
        let s1 ← evalBindings fuel bindings env s
        evalProgramAux fuel rest acc env s1
    | e => do
        let (v, s1) ← evalExpr fuel e env s
        evalProgramAux fuel rest v env s1

/-- Evaluate a parsed program from the global environment. -/
def evaluate (fuel : Nat) (prog : List Expr) : Except String Value :=
  (evalProgramAux fuel prog .null 0 initialStore).map Prod.fst

/-! ## Lexer (`src/lexer.ts`)

Tokens carry a kind tag, a semantic payload and the raw lexeme.  Source
locations are omitted (they decorate error metadata only). -/

inductive TokenType where
  | NUMBER | STRING | TRUE | FALSE | NULL | UNDEFINED
  | LET | IF | ELSE | MATCH | FUNCTION
  | IDENTIFIER
  | PLUS | MINUS | STAR | SLASH | PERCENT
  | EQUAL_EQUAL | BANG_EQUAL | LESS | LESS_EQUAL | GREATER | GREATER_EQUAL
  | AMP_AMP | PIPE_PIPE | BANG | EQUAL | ARROW
  | LEFT_PAREN | RIGHT_PAREN | LEFT_BRACE | RIGHT_BRACE
  | LEFT_BRACKET | RIGHT_BRACKET
  | COMMA | DOT | COLON | SEMICOLON | UNDERSCORE
  | EOF
deriving Repr, DecidableEq

/-- A token's semantic payload (`string | number | boolean | null |
undefined`); tokens without an explicit payload store their lexeme. -/
inductive TokValue where
  | s (v : String)
  | n (v : JNum)
  | b (v : Bool)
  | null
  | undef
deriving Repr, DecidableEq

structure Token where
  type : TokenType
  value : TokValue
  lexeme : String
deriving Repr, DecidableEq

def isDigitC (c : Char) : Bool := '0' ≤ c && c ≤ '9'

def isAlphaC (c : Char) : Bool :=
  ('a' ≤ c && c ≤ 'z') || ('A' ≤ c && c ≤ 'Z') || c = '_'

def isAlphaNumericC (c : Char) : Bool := isAlphaC c || isDigitC c

/-- `getKeywordType`: the words the lexer classifies as keywords. -/
def getKeywordType (text : String) : Option TokenType :=
  match text with
  | "let" => some .LET
  | "if" => some .IF
  | "else" => some .ELSE
  | "match" => some .MATCH
  | "function" => some .FUNCTION
  | "true" => some .TRUE
  | "false" => some .FALSE
  | "null" => some .NULL
  | "undefined" => some .UNDEFINED
  | _ => none

/-- `getKeywordValue`: literal keywords carry their literal payload, the
rest carry their text. -/
def getKeywordValue (text : String) : TokValue :=
  match text with
  | "true" => .b true
  | "false" => .b false
  | "null" => .null
  | "undefined" => .undef
  | _ => .s text

/-- Longest alphanumeric run, the continuation of `scanIdentifier`. -/
def spanAlnum : List Char → List Char × List Char
  | [] => ([], [])
  | c :: rest =>
      if isAlphaNumericC c then
        let (run, rem) := spanAlnum rest
        (c :: run, rem)
      else ([], c :: rest)

def spanDigits : List Char → List Char × List Char
  | [] => ([], [])
  | c :: rest =>
      if isDigitC c then
        let (run, rem) := spanDigits rest
        (c :: run, rem)
      else ([], c :: rest)

def digitsToNat (ds : List Char) : Nat :=
  ds.foldl (fun acc c => acc * 10 + (c.toNat - '0'.toNat)) 0

/-- `scanNumber`: `d+` or `d+.d+`, decoded exactly (`parseFloat` in the
source decodes the same digit strings to double precision, exact on all
inputs appearing in verified programs). -/
def scanNumber (c : Char) (rest : List Char) : Token × List Char :=
  let (intRun, rem1) := spanDigits rest
  let intDigits := c :: intRun
  match rem1 with
  | '.' :: d :: tl =>
      if isDigitC d then
        let (fracRun, rem2) := spanDigits (d :: tl)
        let lexeme := String.mk (intDigits ++ '.' :: fracRun)
        let scale : Int := (10 : Int) ^ fracRun.length
        let value : JNum :=
          ⟨(digitsToNat intDigits : Int) * scale + (digitsToNat fracRun : Int), scale⟩
        (⟨.NUMBER, .n value, lexeme⟩, rem2)
      else
        (⟨.NUMBER, .n ⟨(digitsToNat intDigits : Int), 1⟩, String.mk intDigits⟩, rem1)
  | _ =>
      (⟨.NUMBER, .n ⟨(digitsToNat intDigits : Int), 1⟩, String.mk intDigits⟩, rem1)

def escChar (e : Char) : Char :=
  match e with
  | 'n' => '\n'
  | 't' => '\t'
  | 'r' => '\r'
  | '\\' => '\\'
  | '\"' => '\"'
  | e => e

/-- `scanString`: consume up to the closing quote, decoding escapes;
`none` is the unterminated-string error. -/
def scanStringAux : List Char → String → Option (String × List Char)
  | [], _ => none
  | '\"' :: rest, acc => some (acc, rest)
  | '\\' :: [], _ => none
  | '\\' :: e :: rest, acc => scanStringAux rest (acc.push (escChar e))
  | c :: rest, acc => scanStringAux rest (acc.push c)

/-- One token without payload stores its lexeme as its value. -/
def punct (t : TokenType) (lexeme : String) : Token := ⟨t, .s lexeme, lexeme⟩

/-- `scanIdentifier` (`src/lexer.ts` lines 274-287): extend the consumed
first character with the longest alphanumeric run, then classify the word
through `getKeywordType`. -/
def scanIdentifier (c : Char) (cs : List Char) : Token × List Char :=
  let (run, rest) := spanAlnum cs
  let text := String.mk (c :: run)
  match getKeywordType text with
  | some kw => (⟨kw, getKeywordValue text, text⟩, rest)
  | none => (⟨.IDENTIFIER, .s text, text⟩, rest)

/-- `tokenize`: a single left-to-right pass ending in the `EOF` sentinel.
Line comments and whitespace are elided. -/
def tokenizeAux : Nat → List Char → List Token → Except String (List Token)
  | 0, _, _ => .error "out of fuel"
  | _ + 1, [], acc => .ok (acc ++ [⟨.EOF, .null, ""⟩])
  | fuel + 1, c :: cs, acc =>
    match c, cs with
    | '(', _ => tokenizeAux fuel cs (acc ++ [punct .LEFT_PAREN "("])
    | ')', _ => tokenizeAux fuel cs (acc ++ [punct .RIGHT_PAREN ")"])
    | '{', _ => tokenizeAux fuel cs (acc ++ [punct .LEFT_BRACE "\x7b"])
    | '}', _ => tokenizeAux fuel cs (acc ++ [punct .RIGHT_BRACE "\x7d"])
    | '[', _ => tokenizeAux fuel cs (acc ++ [punct .LEFT_BRACKET "["])
    | ']', _ => tokenizeAux fuel cs (acc ++ [punct .RIGHT_BRACKET "]"])
    | ',', _ => tokenizeAux fuel cs (acc ++ [punct .COMMA ","])
    | '.', _ => tokenizeAux fuel cs (acc ++ [punct .DOT "."])
    | ':', _ => tokenizeAux fuel cs (acc ++ [punct .COLON ":"])
    | ';', _ => tokenizeAux fuel cs (acc ++ [punct .SEMICOLON ";"])
    | '+', _ => tokenizeAux fuel cs (acc ++ [punct .PLUS "+"])
    | '-', _ => tokenizeAux fuel cs (acc ++ [punct .MINUS "-"])
    | '*', _ => tokenizeAux fuel cs (acc ++ [punct .STAR "*"])
    | '/', '/' :: rest =>
        tokenizeAux fuel (rest.dropWhile (fun ch => ch ≠ '\n')) acc
    | '/', _ => tokenizeAux fuel cs (acc ++ [punct .SLASH "/"])
    | '%', _ => tokenizeAux fuel cs (acc ++ [punct .PERCENT "%"])
    | '_', _ => tokenizeAux fuel cs (acc ++ [punct .UNDERSCORE "_"])
    | '=', '=' :: rest => tokenizeAux fuel rest (acc ++ [punct .EQUAL_EQUAL "=="])
    | '=', '>' :: rest => tokenizeAux fuel rest (acc ++ [punct .ARROW "=>"])
    | '=', _ => tokenizeAux fuel cs (acc ++ [punct .EQUAL "="])
    | '!', '=' :: rest => tokenizeAux fuel rest (acc ++ [punct .BANG_EQUAL "!="])
    | '!', _ => tokenizeAux fuel cs (acc ++ [punct .BANG "!"])
    | '<', '=' :: rest => tokenizeAux fuel rest (acc ++ [punct .LESS_EQUAL "<="])
    | '<', _ => tokenizeAux fuel cs (acc ++ [punct .LESS "<"])
    | '>', '=' :: rest => tokenizeAux fuel rest (acc ++ [punct .GREATER_EQUAL ">="])
    | '>', _ => tokenizeAux fuel cs (acc ++ [punct .GREATER ">"])
    | '&', '&' :: rest => tokenizeAux fuel rest (acc ++ [punct .AMP_AMP "&&"])
    | '&', _ => .error "Unexpected character: &"
    | '|', '|' :: rest => tokenizeAux fuel rest (acc ++ [punct .PIPE_PIPE "||"])
    | '|', _ => .error "Unexpected character: |"
    | ' ', _ => tokenizeAux fuel cs acc
    | '\r', _ => tokenizeAux fuel cs acc
    | '\t', _ => tokenizeAux fuel cs acc
    | '\n', _ => tokenizeAux fuel cs acc
    | '\"', _ =>
        (match scanStringAux cs "" with
         | none => .error "Unterminated string"
         | some (value, rest) =>
             tokenizeAux fuel rest (acc ++ [⟨.STRING, .s value, "\"" ++ value ++ "\""⟩]))
    | c, _ =>
        if isDigitC c then
          let (tok, rest) := scanNumber c cs
          tokenizeAux fuel rest (acc ++ [tok])
        else if isAlphaC c then
          let (tok, rest) := scanIdentifier c cs
          tokenizeAux fuel rest (acc ++ [tok])
        else .error ("Unexpected character: " ++ String.mk [c])

def tokenize (source : String) : Except String (List Token) :=
  tokenizeAux (source.length + 1) source.data []

/-! ## Parser (`src/parser.ts`)

Recursive descent over the token list.  The current position is the
remaining token list; the `EOF` sentinel terminates it.  Look-ahead
procedures (`isObjectLiteral`, `checkFunctionParameters`) inspect the list
without consuming, which models the save/restore of the cursor. -/

def eofToken : Token := ⟨.EOF, .null, ""⟩

def peekT (ts : List Token) : Token := ts.headD eofToken

def isAtEndT (ts : List Token) : Bool := (peekT ts).type = .EOF

/-- `check`: false at the end of input, otherwise a kind test. -/
def checkT (t : TokenType) (ts : List Token) : Bool :=
  if isAtEndT ts then false else (peekT ts).type = t

/-- `skipTypeExpression`'s balanced-parenthesis loop. -/
def skipParensLoop : Nat → Nat → List Token → List Token
  | 0, _, ts => ts
  | fuel + 1, depth, ts =>
      if depth > 0 && !isAtEndT ts then
        let depth1 :=
          if checkT .LEFT_PAREN ts then depth + 1
          else if checkT .RIGHT_PAREN ts then depth - 1
          else depth
        skipParensLoop fuel depth1 ts.tail
      else ts

/-- `skipTypeExpression`: consume a type-shaped token run during
function-literal look-ahead. -/
def skipTypeExpression : Nat → List Token → List Token
  | 0, ts => ts
  | fuel + 1, ts =>
      if checkT .IDENTIFIER ts || checkT .NUMBER ts || checkT .STRING ts ||
         checkT .TRUE ts || checkT .FALSE ts || checkT .NULL ts ||
         checkT .UNDEFINED ts then
        ts.tail
      else if checkT .LEFT_PAREN ts then
        let ts1 := skipParensLoop (ts.length + 1) 1 ts.tail
        if checkT .ARROW ts1 then skipTypeExpression fuel ts1.tail else ts1
      else ts

/-- The parameter-list leg of `checkFunctionParameters`. -/
def chkParamsLoop : Nat → List Token → Bool
  | 0, _ => false
  | fuel + 1, ts =>
      if checkT .IDENTIFIER ts then
        let ts1 := ts.tail
        let ts2 := if checkT .COLON ts1 then skipTypeExpression (ts1.length + 1) ts1.tail else ts1
        if checkT .COMMA ts2 then chkParamsLoop fuel ts2.tail
        else if checkT .RIGHT_PAREN ts2 then
          let ts3 := ts2.tail
          let ts4 := if checkT .COLON ts3 then skipTypeExpression (ts3.length + 1) ts3.tail else ts3
          checkT .ARROW ts4
        else false
      else false

/-- `checkFunctionParameters`: decide, from the position just after `(`,
whether the construct is a function literal (cursor restored afterwards). -/
def checkFunctionParameters (ts : List Token) : Bool :=
  if checkT .RIGHT_PAREN ts then
    let ts1 := ts.tail
    let ts2 := if checkT .COLON ts1 then skipTypeExpression (ts1.length + 1) ts1.tail else ts1
    checkT .ARROW ts2
  else if checkT .IDENTIFIER ts then chkParamsLoop (ts.length + 1) ts
  else false

/-- `isObjectLiteral`: after `{`, an empty brace pair, an identifier
followed by a colon, or a string followed by a colon marks a record
literal. -/
def isObjectLiteral (ts : List Token) : Bool :=
  if checkT .RIGHT_BRACE ts then true
  else
    match (peekT ts).type with
    | .IDENTIFIER => checkT .COLON ts.tail
    | .STRING => checkT .COLON ts.tail
    | _ => false

/-- `consume`: take the expected token or fail with the parser's message. -/
def consumeT (t : TokenType) (msg : String) (ts : List Token) :
    Except String (Token × List Token) :=
  if checkT t ts then .ok (peekT ts, ts.tail) else .error msg

/-- `parsePattern`: wildcard, literal, or identifier. -/
def parsePattern (ts : List Token) : Except String (Pattern × List Token) :=
  match (peekT ts).type, (peekT ts).value with
  | .UNDERSCORE, _ => .ok (.wild, ts.tail)
  | .NUMBER, .n q => .ok (.lit (.num q), ts.tail)
  | .STRING, .s str => .ok (.lit (.str str), ts.tail)
  | .TRUE, .b b => .ok (.lit (.bool b), ts.tail)
  | .FALSE, .b b => .ok (.lit (.bool b), ts.tail)
  | .NULL, _ => .ok (.lit .null, ts.tail)
  | .IDENTIFIER, .s name => .ok (.identP name, ts.tail)
  | _, _ => .error "Expected pattern"

mutual

/-- `parseExpression` delegates to the let level. -/
def parseExpression : Nat → List Token → Except String (Expr × List Token)
  | 0, _ => .error "out of fuel"
  | fuel + 1, ts => parseLetExpression fuel ts
  termination_by structural fuel _ => fuel

/-- `parseLetExpression` (`src/parser.ts` lines 86-100): `let IDENT = expr`
builds a variable declaration (a single unannotated binding); anything
else falls to the logical-or level. -/
def parseLetExpression : Nat → List Token → Except String (Expr × List Token)
  | 0, _ => .error "out of fuel"
  | fuel + 1, ts =>
    if checkT .LET ts then do
      let (identTok, ts1) ← consumeT .IDENTIFIER "Expected identifier" ts.tail
      let (_, ts2) ← consumeT .EQUAL "Expected \x27=\x27 after identifier in let expression" ts1
      let (init, ts3) ← parseExpression fuel ts2
      match identTok.value with
      | .s name => .ok (.letE [(name, none, init)], ts3)
      | _ => .error "lexer payload invariant"
    else parseLogicalOr fuel ts
  termination_by structural fuel _ => fuel

def parseLogicalOr : Nat → List Token → Except String (Expr × List Token)
  | 0, _ => .error "out of fuel"
  | fuel + 1, ts => do
      let (e, ts1) ← parseLogicalAnd fuel ts
      orLoop fuel e ts1
  termination_by structural fuel _ => fuel

def orLoop : Nat → Expr → List Token → Except String (Expr × List Token)
  | 0, _, _ => .error "out of fuel"
  | fuel + 1, e, ts =>
    if checkT .PIPE_PIPE ts then do
      let (r, ts1) ← parseLogicalAnd fuel ts.tail
      orLoop fuel (.binE "||" e r) ts1
    else .ok (e, ts)
  termination_by structural fuel _ _ => fuel

def parseLogicalAnd : Nat → List Token → Except String (Expr × List Token)
  | 0, _ => .error "out of fuel"
  | fuel + 1, ts => do
      let (e, ts1) ← parseEquality fuel ts
      andLoop fuel e ts1
  termination_by structural fuel _ => fuel

def andLoop : Nat → Expr → List Token → Except String (Expr × List Token)
  | 0, _, _ => .error "out of fuel"
  | fuel + 1, e, ts =>
    if checkT .AMP_AMP ts then do
      let (r, ts1) ← parseEquality fuel ts.tail
      andLoop fuel (.binE "&&" e r) ts1
    else .ok (e, ts)
  termination_by structural fuel _ _ => fuel

def parseEquality : Nat → List Token → Except String (Expr × List Token)
  | 0, _ => .error "out of fuel"
  | fuel + 1, ts => do
      let (e, ts1) ← parseComparison fuel ts
      eqLoop fuel e ts1
  termination_by structural fuel _ => fuel

def eqLoop : Nat → Expr → List Token → Except String (Expr × List Token)
  | 0, _, _ => .error "out of fuel"
  | fuel + 1, e, ts =>
    if checkT .EQUAL_EQUAL ts then do
      let (r, ts1) ← parseComparison fuel ts.tail
      eqLoop fuel (.binE "==" e r) ts1
    else if checkT .BANG_EQUAL ts then do
      let (r, ts1) ← parseComparison fuel ts.tail
      eqLoop fuel (.binE "!=" e r) ts1
    else .ok (e, ts)
  termination_by structural fuel _ _ => fuel

def parseComparison : Nat → List Token → Except String (Expr × List Token)
  | 0, _ => .error "out of fuel"
  | fuel + 1, ts => do
      let (e, ts1) ← parseAddition fuel ts
      cmpLoop fuel e ts1
  termination_by structural fuel _ => fuel

def cmpLoop : Nat → Expr → List Token → Except String (Expr × List Token)
  | 0, _, _ => .error "out of fuel"
  | fuel + 1, e, ts =>
    if checkT .GREATER ts then do
      let (r, ts1) ← parseAddition fuel ts.tail
      cmpLoop fuel (.binE ">" e r) ts1
    else if checkT .GREATER_EQUAL ts then do
      let (r, ts1) ← parseAddition fuel ts.tail
      cmpLoop fuel (.binE ">=" e r) ts1
    else if checkT .LESS ts then do
      let (r, ts1) ← parseAddition fuel ts.tail
      cmpLoop fuel (.binE "<" e r) ts1
    else if checkT .LESS_EQUAL ts then do
      let (r, ts1) ← parseAddition fuel ts.tail
      cmpLoop fuel (.binE "<=" e r) ts1
    else .ok (e, ts)
  termination_by structural fuel _ _ => fuel

def parseAddition : Nat → List Token → Except String (Expr × List Token)
  | 0, _ => .error "out of fuel"
  | fuel + 1, ts => do
      let (e, ts1) ← parseMultiplication fuel ts
      addLoop fuel e ts1
  termination_by structural fuel _ => fuel

def addLoop : Nat → Expr → List Token → Except String (Expr × List Token)
  | 0, _, _ => .error "out of fuel"
  | fuel + 1, e, ts =>
    if checkT .PLUS ts then do
      let (r, ts1) ← parseMultiplication fuel ts.tail
      addLoop fuel (.binE "+" e r) ts1
    else if checkT .MINUS ts then do
      let (r, ts1) ← parseMultiplication fuel ts.tail
      addLoop fuel (.binE "-" e r) ts1
    else .ok (e, ts)
  termination_by structural fuel _ _ => fuel

def parseMultiplication : Nat → List Token → Except String (Expr × List Token)
  | 0, _ => .error "out of fuel"
  | fuel + 1, ts => do
      let (e, ts1) ← parseUnary fuel ts
      mulLoop fuel e ts1
  termination_by structural fuel _ => fuel

def mulLoop : Nat → Expr → List Token → Except String (Expr × List Token)
  | 0, _, _ => .error "out of fuel"
  | fuel + 1, e, ts =>
    if checkT .STAR ts then do
      let (r, ts1) ← parseUnary fuel ts.tail
      mulLoop fuel (.binE "*" e r) ts1
    else if checkT .SLASH ts then do
      let (r, ts1) ← parseUnary fuel ts.tail
      mulLoop fuel (.binE "/" e r) ts1
    else if checkT .PERCENT ts then do
      let (r, ts1) ← parseUnary fuel ts.tail
      mulLoop fuel (.binE "%" e r) ts1
    else .ok (e, ts)
  termination_by structural fuel _ _ => fuel

def parseUnary : Nat → List Token → Except String (Expr × List Token)
  | 0, _ => .error "out of fuel"
  | fuel + 1, ts =>
    if checkT .BANG ts then do
      let (e, ts1) ← parseUnary fuel ts.tail
      .ok (.unE "!" e, ts1)
    else if checkT .MINUS ts then do
      let (e, ts1) ← parseUnary fuel ts.tail
      .ok (.unE "-" e, ts1)
    else parsePostfix fuel ts
  termination_by structural fuel _ => fuel

def parsePostfix : Nat → List Token → Except String (Expr × List Token)
  | 0, _ => .error "out of fuel"
  | fuel + 1, ts => do
      let (e, ts1) ← parsePrimary fuel ts
      postfixLoop fuel e ts1
  termination_by structural fuel _ => fuel

/-- Call, member and index suffixes, left-associative. -/
def postfixLoop : Nat → Expr → List Token → Except String (Expr × List Token)
  | 0, _, _ => .error "out of fuel"
  | fuel + 1, e, ts =>
    if checkT .LEFT_PAREN ts then do
      let ts1 := ts.tail
      let (args, ts2) ←
        if checkT .RIGHT_PAREN ts1 then .ok (([] : List Expr), ts1)
        else parseArgsLoop fuel ts1
      let (_, ts3) ← consumeT .RIGHT_PAREN "Expected \x27)\x27 after arguments" ts2
      postfixLoop fuel (.callE e args) ts3
    else if checkT .DOT ts then do
      let (propTok, ts1) ← consumeT .IDENTIFIER "Expected property name after \x27.\x27" ts.tail
      match propTok.value with
      | .s prop => postfixLoop fuel (.memberE e prop) ts1
      | _ => .error "lexer payload invariant"
    else if checkT .LEFT_BRACKET ts then do
      let (idx, ts1) ← parseExpression fuel ts.tail
      let (_, ts2) ← consumeT .RIGHT_BRACKET "Expected \x27]\x27 after index" ts1
      postfixLoop fuel (.indexE e idx) ts2
    else .ok (e, ts)
  termination_by structural fuel _ _ => fuel

/-- Comma-separated expressions (call arguments, array elements). -/
def parseArgsLoop : Nat → List Token → Except String (List Expr × List Token)
  | 0, _ => .error "out of fuel"
  | fuel + 1, ts => do
      let (e, ts1) ← parseExpression fuel ts
      if checkT .COMMA ts1 then do
        let (rest, ts2) ← parseArgsLoop fuel ts1.tail
        .ok (e :: rest, ts2)
      else .ok ([e], ts1)
  termination_by structural fuel _ => fuel

def parsePrimary : Nat → List Token → Except String (Expr × List Token)
  | 0, _ => .error "out of fuel"
  | fuel + 1, ts =>
    match (peekT ts).type, (peekT ts).value with
    | .TRUE, _ => .ok (.boolLit true, ts.tail)
    | .FALSE, _ => .ok (.boolLit false, ts.tail)
    | .NULL, _ => .ok (.nullLit, ts.tail)
    | .UNDEFINED, _ => .ok (.undefLit, ts.tail)
    | .NUMBER, .n q => .ok (.numLit q, ts.tail)
    | .STRING, .s str => .ok (.strLit str, ts.tail)
    | .IF, _ => parseIfExpression fuel ts.tail
    | .MATCH, _ => parseMatchExpression fuel ts.tail
    | .LEFT_BRACKET, _ => parseArrayExpression fuel ts.tail
    | .LEFT_BRACE, _ => parseBlockOrObject fuel ts.tail
    | .LEFT_PAREN, _ =>
        let ts1 := ts.tail
        if checkFunctionParameters ts1 then parseFunctionExpression fuel ts1
        else do
          let (e, ts2) ← parseExpression fuel ts1
          let (_, ts3) ← consumeT .RIGHT_PAREN "Expected \x27)\x27 after expression" ts2
          .ok (e, ts3)
    | .IDENTIFIER, .s name =>
        let ts1 := ts.tail
        if checkT .ARROW ts1 then do
          let (bodyE, ts2) ← parseExpression fuel ts1.tail
          .ok (.fnE [(name, none)] none bodyE, ts2)
        else .ok (.ident name, ts1)
    | _, _ => .error "Unexpected token"
  termination_by structural fuel _ => fuel

def parseIfExpression : Nat → List Token → Except String (Expr × List Token)
  | 0, _ => .error "out of fuel"
  | fuel + 1, ts => do
      let (_, ts1) ← consumeT .LEFT_PAREN "Expected \x27(\x27 after \x27if\x27" ts
      let (cond, ts2) ← parseExpression fuel ts1
      let (_, ts3) ← consumeT .RIGHT_PAREN "Expected \x27)\x27 after condition" ts2
      let (thenB, ts4) ← parseExpression fuel ts3
      if checkT .ELSE ts4 then do
        let (elseB, ts5) ← parseExpression fuel ts4.tail
        .ok (.ifE cond thenB (some elseB), ts5)
      else .ok (.ifE cond thenB none, ts4)
  termination_by structural fuel _ => fuel

def parseMatchExpression : Nat → List Token → Except String (Expr × List Token)
  | 0, _ => .error "out of fuel"
  | fuel + 1, ts => do
      let (disc, ts1) ← parseExpression fuel ts
      let (_, ts2) ← consumeT .LEFT_BRACE "Expected \x27\x7b\x27 after match expression" ts1
      let (cases, ts3) ← matchCasesLoop fuel ts2 []
      let (_, ts4) ← consumeT .RIGHT_BRACE "Expected \x27\x7d\x27 after match cases" ts3
      .ok (.matchE disc cases, ts4)
  termination_by structural fuel _ => fuel

def matchCasesLoop : Nat → List Token → List (Pattern × Option Expr × Expr) →
    Except String (List (Pattern × Option Expr × Expr) × List Token)
  | 0, _, _ => .error "out of fuel"
  | fuel + 1, ts, acc =>
    if !checkT .RIGHT_BRACE ts && !isAtEndT ts then do
      let (pat, ts1) ← parsePattern ts
      let (guard, ts2) ←
        if checkT .IF ts1 then do
          let (g, tsg) ← parseExpression fuel ts1.tail
          .ok (some g, tsg)
        else .ok ((none : Option Expr), ts1)
      let (_, ts3) ← consumeT .ARROW "Expected \x27=>\x27 after pattern" ts2
      let (bodyE, ts4) ← parseExpression fuel ts3
      let ts5 := if checkT .COMMA ts4 then ts4.tail else ts4
      matchCasesLoop fuel ts5 (acc ++ [(pat, guard, bodyE)])
    else .ok (acc, ts)
  termination_by structural fuel _ _ => fuel

def parseArrayExpression : Nat → List Token → Except String (Expr × List Token)
  | 0, _ => .error "out of fuel"
  | fuel + 1, ts => do
      let (elems, ts1) ←
        if checkT .RIGHT_BRACKET ts then .ok (([] : List Expr), ts)
        else parseArgsLoop fuel ts
      let (_, ts2) ← consumeT .RIGHT_BRACKET "Expected \x27]\x27 after array elements" ts1
      .ok (.arrayE elems, ts2)
  termination_by structural fuel _ => fuel

/-- `parseBlockOrObjectExpression`: a leading `let` forces a block; the
object-literal look-ahead picks a record; anything else is a block. -/
def parseBlockOrObject : Nat → List Token → Except String (Expr × List Token)
  | 0, _ => .error "out of fuel"
  | fuel + 1, ts =>
    if checkT .LET ts then parseBlockStmts fuel ts []
    else if isObjectLiteral ts then parseObjectExpression fuel ts
    else parseBlockStmts fuel ts []
  termination_by structural fuel _ => fuel

def parseObjectExpression : Nat → List Token → Except String (Expr × List Token)
  | 0, _ => .error "out of fuel"
  | fuel + 1, ts => do
      let (props, ts1) ←
        if checkT .RIGHT_BRACE ts then .ok (([] : List (String × Expr)), ts)
        else parseObjectProps fuel ts
      let (_, ts2) ← consumeT .RIGHT_BRACE "Expected \x27\x7d\x27 after object properties" ts1
      .ok (.objectE props, ts2)
  termination_by structural fuel _ => fuel

def parseObjectProps : Nat → List Token →
    Except String (List (String × Expr) × List Token)
  | 0, _ => .error "out of fuel"
  | fuel + 1, ts => do
      let (key, ts1) ←
        (match (peekT ts).type, (peekT ts).value with
         | .IDENTIFIER, .s k => .ok (k, ts.tail)
         | .STRING, .s k => .ok (k, ts.tail)
         | _, _ => .error "Expected property key")
      let (_, ts2) ← consumeT .COLON "Expected \x27:\x27 after property key" ts1
      let (value, ts3) ← parseExpression fuel ts2
      if checkT .COMMA ts3 then do
        let (rest, ts4) ← parseObjectProps fuel ts3.tail
        .ok ((key, value) :: rest, ts4)
      else .ok ([(key, value)], ts3)
  termination_by structural fuel _ => fuel

/-- `parseBlockExpression`: let statements and expression statements until
the closing brace; an expression directly followed by the closing brace is
the block's value, otherwise the block ends with an undefined literal. -/
def parseBlockStmts : Nat → List Token →
    List (Sum (List (String × Option TyExpr × Expr)) Expr) →
    Except String (Expr × List Token)
  | 0, _, _ => .error "out of fuel"
  | fuel + 1, ts, acc =>
    if !checkT .RIGHT_BRACE ts && !isAtEndT ts then
      if checkT .LET ts then do
        let (identTok, ts1) ← consumeT .IDENTIFIER "Expected identifier" ts.tail
        let (_, ts2) ← consumeT .EQUAL "Expected \x27=\x27 in let statement" ts1
        let (init, ts3) ← parseExpression fuel ts2
        let ts4 := if checkT .SEMICOLON ts3 then ts3.tail else ts3
        match identTok.value with
        | .s name => parseBlockStmts fuel ts4 (acc ++ [.inl [(name, none, init)]])
        | _ => .error "lexer payload invariant"
      else do
        let (e, ts1) ← parseExpression fuel ts
        if checkT .RIGHT_BRACE ts1 then
          .ok (.blockE acc e, ts1.tail)
        else
          let ts2 := if checkT .SEMICOLON ts1 then ts1.tail else ts1
          parseBlockStmts fuel ts2 (acc ++ [.inr e])
    else do
      let (_, ts1) ← consumeT .RIGHT_BRACE "Expected \x27\x7d\x27 after block" ts
      .ok (.blockE acc .undefLit, ts1)
  termination_by structural fuel _ _ => fuel

/-- `parseFunctionExpression`, entered just after the opening paren. -/
def parseFunctionExpression : Nat → List Token → Except String (Expr × List Token)
  | 0, _ => .error "out of fuel"
  | fuel + 1, ts => do
      let (params, ts1) ←
        if checkT .RIGHT_PAREN ts then .ok (([] : List (String × Option TyExpr)), ts)
        else parseParamsLoop fuel ts
      let (_, ts2) ← consumeT .RIGHT_PAREN "Expected \x27)\x27 after parameters" ts1
      let (retAnn, ts3) ←
        if checkT .COLON ts2 then do
          let (ty, tsr) ← parseTypeExpression fuel ts2.tail
          .ok (some ty, tsr)
        else .ok ((none : Option TyExpr), ts2)
      let (_, ts4) ← consumeT .ARROW "Expected \x27=>\x27 after parameters" ts3
      let (bodyE, ts5) ← parseExpression fuel ts4
      .ok (.fnE params retAnn bodyE, ts5)
  termination_by structural fuel _ => fuel

def parseParamsLoop : Nat → List Token →
    Except String (List (String × Option TyExpr) × List Token)
  | 0, _ => .error "out of fuel"
  | fuel + 1, ts => do
      let (identTok, ts1) ← consumeT .IDENTIFIER "Expected identifier" ts
      let name ← (match identTok.value with
        | .s n => .ok n
        | _ => .error "lexer payload invariant")
      let (ann, ts2) ←
        if checkT .COLON ts1 then do
          let (ty, tsr) ← parseTypeExpression fuel ts1.tail
          .ok (some ty, tsr)
        else .ok ((none : Option TyExpr), ts1)
      if checkT .COMMA ts2 then do
        let (rest, ts3) ← parseParamsLoop fuel ts2.tail
        .ok ((name, ann) :: rest, ts3)
      else .ok ([(name, ann)], ts2)
  termination_by structural fuel _ => fuel

/-- `parseBaseTypeExpression`: function types, primitive names, `null`,
`undefined`, and named type variables. -/
def parseTypeExpression : Nat → List Token → Except String (TyExpr × List Token)
  | 0, _ => .error "out of fuel"
  | fuel + 1, ts =>
    if checkT .LEFT_PAREN ts then do
      let ts1 := ts.tail
      let (params, ts2) ←
        if checkT .RIGHT_PAREN ts1 then .ok (([] : List TyExpr), ts1)
        else parseTypeParamsLoop fuel ts1
      let (_, ts3) ← consumeT .RIGHT_PAREN "Expected \x27)\x27 after parameter types" ts2
      let (_, ts4) ← consumeT .ARROW "Expected \x27=>\x27 in function type" ts3
      let (ret, ts5) ← parseTypeExpression fuel ts4
      .ok (.fnT params ret, ts5)
    else
      match (peekT ts).type, (peekT ts).value with
      | .IDENTIFIER, .s name =>
          if name = "number" || name = "string" || name = "boolean" || name = "unit" then
            .ok (.prim name, ts.tail)
          else .ok (.tvarT name, ts.tail)
      | .NULL, _ => .ok (.prim "null", ts.tail)
      | .UNDEFINED, _ => .ok (.prim "undefined", ts.tail)
      | _, _ => .error "Expected type expression"
  termination_by structural fuel _ => fuel

def parseTypeParamsLoop : Nat → List Token → Except String (List TyExpr × List Token)
  | 0, _ => .error "out of fuel"
  | fuel + 1, ts => do
      let (ty, ts1) ← parseTypeExpression fuel ts
      if checkT .COMMA ts1 then do
        let (rest, ts2) ← parseTypeParamsLoop fuel ts1.tail
        .ok (ty :: rest, ts2)
      else .ok ([ty], ts1)
  termination_by structural fuel _ => fuel

/-- `Parser.parse`: top-level expressions with optional semicolons. -/
def parseProgramAux : Nat → List Token → List Expr → Except String (List Expr)
  | 0, _, _ => .error "out of fuel"
  | fuel + 1, ts, acc =>
    if isAtEndT ts then .ok acc
    else do
      let (e, ts1) ← parseExpression fuel ts
      let ts2 := if checkT .SEMICOLON ts1 then ts1.tail else ts1
      parseProgramAux fuel ts2 (acc ++ [e])

end

/-- Lex and parse a source string. -/
def parse (source : String) : Except String (List Expr) := do
  let toks ← tokenize source
  parseProgramAux (toks.length * 200 + 200) toks []

/-! ## Claim verification -/

/-- C1: for `let add = (x, y) => x + y; add(5, 10)`, parsing succeeds,
`inferAndSolve` succeeds and assigns `add` the type
`(number, number) => number`, and evaluation returns the number 15. -/
theorem c1_add_program_pipeline :
    (parse "let add = (x, y) => x + y; add(5, 10)").isOk = true ∧
    ((parse "let add = (x, y) => x + y; add(5, 10)").bind
        (fun prog => inferAndSolve 100 prog initialTypeEnv)).map
        (fun env => (envGetT env "add").map Scheme.type)
      = .ok (some (.fn [.number, .number] .number)) ∧
    (parse "let add = (x, y) => x + y; add(5, 10)").bind (evaluate 100)
      = .ok (.num 15) :=
  ⟨rfl, rfl, rfl⟩

/-- C2: the repository's tests and examples require a guarded match case to
be selected only when its guard is truthy, so that
`match 5 { x if x < 0 => "neg", 0 => "zero", _ => "pos" }` is `"pos"`,
`"neg"` at discriminant -1 and `"zero"` at 0.  The evaluator's
`evaluateMatchExpression` never consults `matchCase.guard`: the first
pattern to match is selected outright, so all three programs evaluate to
`"neg"` — the identifier pattern of the first case always matches. -/
theorem c2_match_guard_never_consulted :
    (parse "match 5 \x7b x if x < 0 => \"neg\", 0 => \"zero\", _ => \"pos\" \x7d").bind
        (evaluate 100) = .ok (.str "neg") ∧
    (parse "match -1 \x7b x if x < 0 => \"neg\", 0 => \"zero\", _ => \"pos\" \x7d").bind
        (evaluate 100) = .ok (.str "neg") ∧
    (parse "match 0 \x7b x if x < 0 => \"neg\", 0 => \"zero\", _ => \"pos\" \x7d").bind
        (evaluate 100) = .ok (.str "neg") :=
  ⟨rfl, rfl, rfl⟩

/-- C3: the repository's tests require `let x = { self: x }` to fail with a
referenced-before-initialization error produced by a pending-sentinel
pre-definition of each bound name.  The evaluator's
`evaluateVariableDeclaration` pre-defines nothing: it evaluates the
initializer first, so the read of `x` raises the ordinary
undefined-variable error instead. -/
theorem c3_self_reference_without_sentinel :
    (parse "let x = \x7b self: x \x7d").bind (evaluate 100)
      = .error "Undefined variable: x" :=
  rfl

/-- C4 counterexample: the claim asserts that when `e1` is falsy the right
operand of `e1 && e2` is not evaluated and no runtime error from `e2` can
surface.  In `false && 1 / 0 == 0` the left operand is falsy, yet
evaluation raises the division-by-zero error from the right operand: the
evaluator computes both operands before dispatching on the operator. -/
theorem c4_short_circuit_counterexample :
    (parse "false && 1 / 0 == 0").bind (evaluate 100) = .error "Division by zero" :=
  rfl

/-- C4 (amended): `e1 && e2` and `e1 || e2` evaluate both operands
unconditionally; once `e1` yields `l`, the result is exactly the result of
evaluating `e2` mapped through the truthiness conjunction (respectively
disjunction) — so an error raised by `e2` surfaces even when `l` already
decides the answer, and no short-circuiting occurs. -/
theorem c4_logical_operators_evaluate_both_operands :
    ∀ (fuel : Nat) (e1 e2 : Expr) (env : Nat) (s : Store) (l : Value) (s1 : Store),
    evalExpr fuel e1 env s = .ok (l, s1) →
    evalExpr (fuel + 1) (.binE "&&" e1 e2) env s =
      (evalExpr fuel e2 env s1).map (fun p => (.bool (isTruthy l && isTruthy p.1), p.2)) ∧
    evalExpr (fuel + 1) (.binE "||" e1 e2) env s =
      (evalExpr fuel e2 env s1).map (fun p => (.bool (isTruthy l || isTruthy p.1), p.2)) := by
  intro fuel e1 e2 env s l s1 h
  constructor <;>
    · simp only [evalExpr, h]
      cases h2 : evalExpr fuel e2 env s1 with
      | ok p => simp [Bind.bind, Except.bind, h2, Except.map]
      | error msg => simp [Bind.bind, Except.bind, h2, Except.map]

/-- C4 (amended) witness: instantiating the theorem at
`false && 1 / 0 == 0` in the global environment shows the division error
of the right operand surfacing past the falsy left operand. -/
theorem c4_amended_witness :
    evalExpr 99 (.binE "&&" (.boolLit false)
        (.binE "==" (.binE "/" (.numLit 1) (.numLit 0)) (.numLit 0))) 0 initialStore
      = .error "Division by zero" := by
  have h := (c4_logical_operators_evaluate_both_operands 98 (.boolLit false)
    (.binE "==" (.binE "/" (.numLit 1) (.numLit 0)) (.numLit 0)) 0 initialStore
    (.bool false) initialStore rfl).1
  rw [h]
  rfl

mutual

/-- Structural depth of a type, used both as an observable separating
distinct types and as a fuel bound for unification. -/
def tyDepth : Ty → Nat
  | .array e => tyDepth e + 1
  | .dict k v => max (tyDepth k) (tyDepth v) + 1
  | .object fields _ => fieldsDepth fields + 1
  | .fn ps r => max (paramsDepth ps) (tyDepth r) + 1
  | _ => 1

def fieldsDepth : List (String × Ty) → Nat
  | [] => 0
  | (_, t) :: rest => max (tyDepth t) (fieldsDepth rest)

def paramsDepth : List Ty → Nat
  | [] => 0
  | t :: rest => max (tyDepth t) (paramsDepth rest)

end

/-- C5 counterexample: inferring `(x) => x == { f: x }` leaves the single
equality constraint `t0 = { f: t0 }`; because the occurs check is
suppressed for record types, `solveConstraints` returns the substitution
`[t0 ↦ { f: t0 }]`, and applying it twice to `t0` nests the record one
level deeper than applying it once — the solved substitution is not
idempotent. -/
theorem c5_idempotence_counterexample :
    parse "(x) => x == \x7b f: x \x7d"
      = .ok [.fnE [("x", none)] none
              (.binE "==" (.ident "x") (.objectE [("f", .ident "x")]))] ∧
    inferExpr 100 (.fnE [("x", none)] none
        (.binE "==" (.ident "x") (.objectE [("f", .ident "x")]))) initialTypeEnv .init
      = .ok (.fn [.tvar 0] .boolean, initialTypeEnv,
             ⟨[⟨.tvar 0, .object [("f", .tvar 0)] none⟩], [], 1, 0⟩) ∧
    solveConstraints 100 ⟨[⟨.tvar 0, .object [("f", .tvar 0)] none⟩], [], 1, 0⟩
      = .ok ([(0, .object [("f", .tvar 0)] none)], ⟨[], [], 1, 0⟩) ∧
    applySubstitution [(0, .object [("f", .tvar 0)] none)]
        (applySubstitution [(0, .object [("f", .tvar 0)] none)] (.tvar 0))
      ≠ applySubstitution [(0, .object [("f", .tvar 0)] none)] (.tvar 0) :=
  ⟨rfl, rfl, rfl, fun hEq => absurd (congrArg tyDepth hEq) (by decide)⟩

/-- The row tail of a substitution image is already stable when the image
itself is stable under the substitution. -/
theorem applyRowSubstitution_idem (σ : Subst)
    (h : ∀ id t, subGet σ id = some t → applySubstitution σ t = t) (r : Nat) :
    applyRowSubstitution σ (applyRowSubstitution σ r) = applyRowSubstitution σ r := by
  unfold applyRowSubstitution
  cases hg : subGet σ r with
  | none => simp [hg]
  | some t =>
      cases t with
      | rvar r2 =>
          have h2 := h r (.rvar r2) hg
          simp only [applySubstitution] at h2
          cases hg2 : subGet σ r2 with
          | none => simp [hg2]
          | some t2 => simp [hg2] at h2 ⊢; simp [h2]
      | _ => simp [hg]

mutual

theorem applySubstitution_idemAux (σ : Subst)
    (h : ∀ id t, subGet σ id = some t → applySubstitution σ t = t) :
    ∀ t, applySubstitution σ (applySubstitution σ t) = applySubstitution σ t
  | .tvar id => by
      cases hg : subGet σ id with
      | some t => simp only [applySubstitution, hg, Option.getD]; exact h id t hg
      | none => simp [applySubstitution, hg]
  | .rvar id => by
      cases hg : subGet σ id with
      | some t => simp only [applySubstitution, hg, Option.getD]; exact h id t hg
      | none => simp [applySubstitution, hg]
  | .number => rfl
  | .string => rfl
  | .boolean => rfl
  | .null => rfl
  | .undefined => rfl
  | .unit => rfl
  | .array e => by
      simp [applySubstitution, applySubstitution_idemAux σ h e]
  | .dict k v => by
      simp [applySubstitution, applySubstitution_idemAux σ h k,
            applySubstitution_idemAux σ h v]
  | .object fields rowVar => by
      cases rowVar with
      | none => simp [applySubstitution, applySubFields_idemAux σ h fields]
      | some r =>
          simp [applySubstitution, applySubFields_idemAux σ h fields,
                applyRowSubstitution_idem σ h r]
  | .fn ps r => by
      simp [applySubstitution, applySubList_idemAux σ h ps,
            applySubstitution_idemAux σ h r]

theorem applySubFields_idemAux (σ : Subst)
    (h : ∀ id t, subGet σ id = some t → applySubstitution σ t = t) :
    ∀ fs, applySubFields σ (applySubFields σ fs) = applySubFields σ fs
  | [] => rfl
  | (k, t) :: rest => by
      simp [applySubFields, applySubstitution_idemAux σ h t,
            applySubFields_idemAux σ h rest]

theorem applySubList_idemAux (σ : Subst)
    (h : ∀ id t, subGet σ id = some t → applySubstitution σ t = t) :
    ∀ ts, applySubList σ (applySubList σ ts) = applySubList σ ts
  | [] => rfl
  | t :: rest => by
      simp [applySubList, applySubstitution_idemAux σ h t,
            applySubList_idemAux σ h rest]

end

/-- C5 (amended): `applySubstitution σ` is idempotent for every
substitution σ whose images are themselves fixed by σ — the shape every
solved substitution has as long as no binding was produced under the
record occurs-check suppression.  The suppression makes the original
unconditional claim false (see the counterexample). -/
theorem c5_applySubstitution_idempotent (σ : Subst) (τ : Ty)
    (h : ∀ id t, subGet σ id = some t → applySubstitution σ t = t) :
    applySubstitution σ (applySubstitution σ τ) = applySubstitution σ τ :=
  applySubstitution_idemAux σ h τ

/-- C5 (amended) witness at the substitution `[t0 ↦ number]`, an actual
output of `solveConstraints` for the constraint `t0 = number`. -/
theorem c5_amended_witness :
    solveConstraints 5 ⟨[⟨.tvar 0, .number⟩], [], 1, 0⟩
      = .ok ([(0, .number)], ⟨[], [], 1, 0⟩) ∧
    applySubstitution [(0, Ty.number)]
        (applySubstitution [(0, Ty.number)] (.object [("f", .tvar 0)] none))
      = applySubstitution [(0, Ty.number)] (.object [("f", .tvar 0)] none) :=
  ⟨rfl,
   c5_applySubstitution_idempotent [(0, .number)] (.object [("f", .tvar 0)] none)
     (by
       intro id t hg
       simp [subGet] at hg
       rcases hg with ⟨h1, h2⟩
       subst h2
       rfl)⟩

/-- C8 counterexample: the lexer does not treat `and` as a keyword (it is
an identifier), it does treat `function` as a keyword, and a leading
underscore is the `UNDERSCORE` punctuator rather than the start of an
identifier — three divergences from the claimed token classification. -/
theorem c8_keyword_list_counterexample :
    tokenize "and" = .ok [⟨.IDENTIFIER, .s "and", "and"⟩, ⟨.EOF, .null, ""⟩] ∧
    tokenize "function"
      = .ok [⟨.FUNCTION, .s "function", "function"⟩, ⟨.EOF, .null, ""⟩] ∧
    tokenize "_x"
      = .ok [punct .UNDERSCORE "_", ⟨.IDENTIFIER, .s "x", "x"⟩, ⟨.EOF, .null, ""⟩] :=
  ⟨rfl, rfl, rfl⟩

/-- A list of alphanumeric characters is consumed in one run. -/
theorem spanAlnum_all :
    ∀ cs : List Char, (∀ x ∈ cs, isAlphaNumericC x = true) → spanAlnum cs = (cs, [])
  | [], _ => rfl
  | c :: rest, h => by
      have hc : isAlphaNumericC c = true := h c (List.mem_cons_self c rest)
      have ih := spanAlnum_all rest (fun x hx => h x (List.mem_cons_of_mem c hx))
      simp [spanAlnum, hc, ih]

/-- C8 (amended): the lexer classifies exactly the words `let`, `if`,
`else`, `match`, `function`, `true`, `false`, `null`, `undefined` as
keywords; a maximal word scanned by `scanIdentifier` becomes the matching
keyword token when `getKeywordType` knows it and an `IDENTIFIER` token
otherwise; and a leading underscore never reaches `scanIdentifier` — the
tokenizer emits the `UNDERSCORE` punctuator for it. -/
theorem c8_keyword_and_identifier_classes :
    (∀ w : String, (getKeywordType w).isSome = true ↔
        w ∈ ["let", "if", "else", "match", "function",
             "true", "false", "null", "undefined"]) ∧
    (∀ (c : Char) (cs : List Char),
        (∀ x ∈ cs, isAlphaNumericC x = true) →
        scanIdentifier c cs =
          (match getKeywordType (String.mk (c :: cs)) with
           | some kw =>
               ⟨kw, getKeywordValue (String.mk (c :: cs)), String.mk (c :: cs)⟩
           | none =>
               ⟨.IDENTIFIER, .s (String.mk (c :: cs)), String.mk (c :: cs)⟩,
           [])) ∧
    (∀ (fuel : Nat) (cs : List Char) (acc : List Token),
        tokenizeAux (fuel + 1) ('_' :: cs) acc
          = tokenizeAux fuel cs (acc ++ [punct .UNDERSCORE "_"])) := by
  refine ⟨?_, ?_, ?_⟩
  · intro w
    constructor
    · intro h
      unfold getKeywordType at h
      split at h <;> simp_all
    · intro h
      simp only [List.mem_cons, List.not_mem_nil, or_false] at h
      rcases h with rfl | rfl | rfl | rfl | rfl | rfl | rfl | rfl | rfl <;> rfl
  · intro c cs h
    simp only [scanIdentifier, spanAlnum_all cs h]
    cases getKeywordType (String.mk (c :: cs)) <;> rfl
  · intro fuel cs acc
    rfl

/-- C8 (amended) witness at `foo` (identifier) and `let` (keyword). -/
theorem c8_amended_witness :
    ((getKeywordType "and").isSome = true ↔
        "and" ∈ ["let", "if", "else", "match", "function",
                 "true", "false", "null", "undefined"]) ∧
    scanIdentifier 'f' ['o', 'o'] = (⟨.IDENTIFIER, .s "foo", "foo"⟩, []) ∧
    scanIdentifier 'l' ['e', 't'] = (⟨.LET, .s "let", "let"⟩, []) ∧
    tokenizeAux 3 ['_', 'x'] [] = tokenizeAux 2 ['x'] [punct .UNDERSCORE "_"] :=
  ⟨c8_keyword_and_identifier_classes.1 "and",
   (c8_keyword_and_identifier_classes.2.1 'f' ['o', 'o'] (by decide)).trans rfl,
   (c8_keyword_and_identifier_classes.2.1 'l' ['e', 't'] (by decide)).trans rfl,
   c8_keyword_and_identifier_classes.2.2 2 ['x'] []⟩

/-- C9 counterexample: the original claim fails at the field name
`toString` — reading the absent field `toString` of `\x7b a: 1 \x7d` finds
the inherited `Object.prototype.toString` and raises no error, while the
present field `toString: undefined` shadows the prototype and raises the
missing-property error, so a present undefined-valued field is
distinguishable from a missing one. -/
theorem c9_prototype_counterexample :
    evalExpr 6 (.memberE (.objectE [("a", .numLit ⟨1, 1⟩)]) "toString")
        0 initialStore
      = .ok (.builtin "Object.prototype.toString", initialStore) ∧
    evalExpr 6 (.memberE (.objectE [("toString", .undefLit)]) "toString")
        0 initialStore
      = .error (propertyMissing "toString") :=
  ⟨rfl, rfl⟩

/-- C9 (amended): when the receiver evaluates to a record, member access
raises the missing-property error exactly when the own field holds the
undefined value, or is absent under a name that is not an
`Object.prototype` member; an absent field under a prototype member name
instead yields the inherited member.  So a present undefined-valued field
is indistinguishable from a missing one only away from the prototype
member names. -/
theorem c9_member_access_undefined_vs_missing :
    ∀ (fuel : Nat) (objE : Expr) (prop : String) (env : Nat) (s : Store)
      (fields : List (String × Value)) (s1 : Store),
    evalExpr fuel objE env s = .ok (.obj fields, s1) →
    ((assocGetV fields prop = none ∧ prop ∉ objectProtoMembers) ∨
        assocGetV fields prop = some .undef →
      evalExpr (fuel + 1) (.memberE objE prop) env s
        = .error (propertyMissing prop)) ∧
    (assocGetV fields prop = none ∧ prop ∈ objectProtoMembers →
      evalExpr (fuel + 1) (.memberE objE prop) env s
        = .ok (.builtin ("Object.prototype." ++ prop), s1)) := by
  intro fuel objE prop env s fields s1 h
  constructor
  · intro hf
    simp only [evalExpr, h, Bind.bind, Except.bind]
    rcases hf with ⟨hf, hmem⟩ | hf
    · simp [hf, hmem]
    · simp [hf]
  · intro hf
    simp only [evalExpr, h, Bind.bind, Except.bind]
    simp [hf.1, hf.2]

/-- C9 witness: on the records `[("a", undefined)]` and `[("a", 1)]`, the
step theorem gives the error for the present undefined field `a`, the
error for the absent non-prototype field `b`, and the inherited member
for the absent prototype field `toString`. -/
theorem c9_witness :
    evalExpr 5 (.objectE [("a", .undefLit)]) 0 initialStore
      = .ok (.obj [("a", .undef)], initialStore) ∧
    evalExpr 6 (.memberE (.objectE [("a", .undefLit)]) "a") 0 initialStore
      = .error (propertyMissing "a") ∧
    evalExpr 6 (.memberE (.objectE [("a", .undefLit)]) "b") 0 initialStore
      = .error (propertyMissing "b") ∧
    evalExpr 5 (.objectE [("a", .numLit ⟨1, 1⟩)]) 0 initialStore
      = .ok (.obj [("a", .num ⟨1, 1⟩)], initialStore) ∧
    evalExpr 6 (.memberE (.objectE [("a", .numLit ⟨1, 1⟩)]) "valueOf")
        0 initialStore
      = .ok (.builtin "Object.prototype.valueOf", initialStore) :=
  ⟨rfl,
   (c9_member_access_undefined_vs_missing 5 (.objectE [("a", .undefLit)]) "a"
      0 initialStore [("a", .undef)] initialStore rfl).1 (Or.inr rfl),
   (c9_member_access_undefined_vs_missing 5 (.objectE [("a", .undefLit)]) "b"
      0 initialStore [("a", .undef)] initialStore rfl).1
     (Or.inl ⟨rfl, by decide⟩),
   rfl,
   (c9_member_access_undefined_vs_missing 5 (.objectE [("a", .numLit ⟨1, 1⟩)])
      "valueOf" 0 initialStore [("a", .num ⟨1, 1⟩)] initialStore rfl).2
     ⟨rfl, by decide⟩⟩

/-- Whether (and to what value) `name` is bound in the bindings map of the
frame addressed by `fid`, without walking parents. -/
def boundInFrame (s : Store) (fid : Nat) (name : String) : Option Value :=
  match s.get? fid with
  | some fr => assocGetV fr.bindings name
  | none => none

/-- Writing a key into an association map makes it readable. -/
theorem assocGetV_assocSetV_self :
    ∀ (l : List (String × Value)) (k : String) (v : Value),
    assocGetV (assocSetV l k v) k = some v
  | [], k, v => by simp [assocSetV, assocGetV]
  | (k0, v0) :: rest, k, v => by
      by_cases h : k0 = k
      · simp [assocSetV, assocGetV, h]
      · simp [assocSetV, assocGetV, h, assocGetV_assocSetV_self rest k v]

/-- `storeDefine` writes into the addressed frame: the binding is
afterwards present in that very frame. -/
theorem storeDefine_bound (s : Store) (fid : Nat) (name : String) (v : Value)
    (h : fid < s.length) :
    boundInFrame (storeDefine s fid name v) fid name = some v := by
  have hfr : s.get? fid = some (s.get ⟨fid, h⟩) := List.get?_eq_get h
  simp only [storeDefine, boundInFrame, hfr]
  rw [List.get?_eq_getElem?,
      List.getElem?_set_self (by simpa using h)]
  simp [assocGetV_assocSetV_self]

/-- C10: a match expression hands `evalCases` the very environment it is
evaluated in; an identifier pattern defines the name through `storeDefine`
directly in that environment (no child frame is created) and the selected
body runs there; the binding is then present in that frame; and it
survives the match — in `match 5 \x7b x => 0 \x7d; x` the trailing `x`
still reads `5` from the surrounding scope. -/
theorem c10_identifier_pattern_binds_in_match_env :
    (∀ (fuel : Nat) (disc : Expr) (cases : List (Pattern × Option Expr × Expr))
        (env : Nat) (s : Store) (v : Value) (s1 : Store),
        evalExpr fuel disc env s = .ok (v, s1) →
        evalExpr (fuel + 1) (.matchE disc cases) env s
          = evalCases fuel v cases env s1) ∧
    (∀ (fuel : Nat) (v : Value) (name : String) (g : Option Expr) (body : Expr)
        (rest : List (Pattern × Option Expr × Expr)) (env : Nat) (s : Store),
        evalCases (fuel + 2) v ((.identP name, g, body) :: rest) env s
          = evalExpr (fuel + 1) body env (storeDefine s env name v)) ∧
    (∀ (s : Store) (env : Nat) (name : String) (v : Value), env < s.length →
        boundInFrame (storeDefine s env name v) env name = some v) ∧
    (parse "match 5 \x7b x => 0 \x7d; x").bind (evaluate 100)
      = .ok (.num ⟨5, 1⟩) := by
  refine ⟨?_, ?_, storeDefine_bound, rfl⟩
  · intro fuel disc cases env s v s1 h
    simp only [evalExpr, h, Bind.bind, Except.bind]
  · intro fuel v name g body rest env s
    rfl

/-- C10 witness: the three hypothesis-bearing conjuncts applied at the
match `match 5 \x7b x => 0 \x7d` in the global store. -/
theorem c10_witness :
    evalExpr 5 (.numLit ⟨5, 1⟩) 0 initialStore
      = .ok (.num ⟨5, 1⟩, initialStore) ∧
    evalExpr 6 (.matchE (.numLit ⟨5, 1⟩)
        [(.identP "x", none, .numLit ⟨0, 1⟩)]) 0 initialStore
      = evalCases 5 (.num ⟨5, 1⟩)
          [(.identP "x", none, .numLit ⟨0, 1⟩)] 0 initialStore ∧
    evalCases 5 (.num ⟨5, 1⟩)
        [(.identP "x", none, .numLit ⟨0, 1⟩)] 0 initialStore
      = evalExpr 4 (.numLit ⟨0, 1⟩) 0
          (storeDefine initialStore 0 "x" (.num ⟨5, 1⟩)) ∧
    0 < initialStore.length ∧
    boundInFrame (storeDefine initialStore 0 "x" (.num ⟨5, 1⟩)) 0 "x"
      = some (.num ⟨5, 1⟩) :=
  ⟨rfl,
   c10_identifier_pattern_binds_in_match_env.1 5 (.numLit ⟨5, 1⟩)
     [(.identP "x", none, .numLit ⟨0, 1⟩)] 0 initialStore (.num ⟨5, 1⟩)
     initialStore rfl,
   c10_identifier_pattern_binds_in_match_env.2.1 3 (.num ⟨5, 1⟩) "x" none
     (.numLit ⟨0, 1⟩) [] 0 initialStore,
   by decide,
   c10_identifier_pattern_binds_in_match_env.2.2.1 initialStore 0 "x"
     (.num ⟨5, 1⟩) (by decide)⟩

mutual

/-- Modelled from the spec: the structural join of two record types — the
common-field set in first-record order; for each common field, if both
field types are records recurse, otherwise keep the then-side type and
emit an equality constraint between the two field types; the result is
the closed field list together with the constraints emitted in order. -/
def specStructuralJoin : Nat → List (String × Ty) → List (String × Ty) →
    Option (List (String × Ty) × List Constraint)
  | 0, _, _ => none
  | fuel + 1, f1, f2 =>
      specJoinLoop fuel f1 f2 ((fieldNames f1).filter (fun k => k ∈ fieldNames f2))
  termination_by structural fuel _ _ => fuel

/-- Modelled from the spec: one pass over the common field names. -/
def specJoinLoop : Nat → List (String × Ty) → List (String × Ty) → List String →
    Option (List (String × Ty) × List Constraint)
  | 0, _, _, _ => none
  | _ + 1, _, _, [] => some ([], [])
  | fuel + 1, f1, f2, key :: rest =>
      match lookupField f1 key, lookupField f2 key with
      | some aField, some bField =>
          match bothObjectFields aField bField with
          | some (af, bf) => do
              let (nested, cs1) ← specStructuralJoin fuel af bf
              let (others, cs2) ← specJoinLoop fuel f1 f2 rest
              some ((key, .object nested none) :: others, cs1 ++ cs2)
          | none => do
              let (others, cs) ← specJoinLoop fuel f1 f2 rest
              some ((key, aField) :: others, ⟨aField, bField⟩ :: cs)
      | _, _ => specJoinLoop fuel f1 f2 rest
  termination_by structural fuel _ _ _ => fuel

end

mutual

/-- `joinObjectTypes` refines the spec-side structural join: whenever the
spec join is defined, the code returns the closed record over its fields
and appends exactly its constraints to the state. -/
theorem joinObjectTypes_spec :
    ∀ (fuel : Nat) (f1 f2 : List (String × Ty)) (st : InferSt)
      (fields : List (String × Ty)) (cs : List Constraint),
    specStructuralJoin fuel f1 f2 = some (fields, cs) →
    joinObjectTypes fuel f1 f2 st
      = .ok (.object fields none,
             { st with constraints := st.constraints ++ cs })
  | 0, _, _, _, _, _, h => by simp [specStructuralJoin] at h
  | fuel + 1, f1, f2, st, fields, cs, h => by
      simp only [specStructuralJoin] at h
      simp only [joinObjectTypes,
                 joinFieldsLoop_spec fuel f1 f2 _ st fields cs h,
                 Bind.bind, Except.bind]
  termination_by structural fuel _ _ _ _ _ _ => fuel

theorem joinFieldsLoop_spec :
    ∀ (fuel : Nat) (f1 f2 : List (String × Ty)) (keys : List String)
      (st : InferSt) (fields : List (String × Ty)) (cs : List Constraint),
    specJoinLoop fuel f1 f2 keys = some (fields, cs) →
    joinFieldsLoop fuel f1 f2 keys st
      = .ok (fields, { st with constraints := st.constraints ++ cs })
  | 0, _, _, _, _, _, _, h => by simp [specJoinLoop] at h
  | _ + 1, f1, f2, [], st, fields, cs, h => by
      simp only [specJoinLoop, Option.some.injEq, Prod.mk.injEq] at h
      obtain ⟨h1, h2⟩ := h
      subst h1; subst h2
      simp [joinFieldsLoop]
  | fuel + 1, f1, f2, key :: rest, st, fields, cs, h => by
      simp only [specJoinLoop] at h
      simp only [joinFieldsLoop]
      cases h1 : lookupField f1 key with
      | none =>
          simp only [h1] at h ⊢
          exact joinFieldsLoop_spec fuel f1 f2 rest st fields cs h
      | some aField =>
          cases h2 : lookupField f2 key with
          | none =>
              simp only [h1, h2] at h ⊢
              exact joinFieldsLoop_spec fuel f1 f2 rest st fields cs h
          | some bField =>
              simp only [h1, h2] at h ⊢
              cases hp : bothObjectFields aField bField with
              | none =>
                  simp only [hp] at h ⊢
                  cases hs : specJoinLoop fuel f1 f2 rest with
                  | none => rw [hs] at h; simp [Bind.bind, Option.bind] at h
                  | some p =>
                      obtain ⟨others, cs0⟩ := p
                      rw [hs] at h
                      simp only [Bind.bind, Option.bind, Option.some.injEq,
                                 Prod.mk.injEq] at h
                      obtain ⟨hf, hc⟩ := h
                      subst hf; subst hc
                      simp only [joinFieldsLoop_spec fuel f1 f2 rest
                                   (addConstraint st aField bField) others cs0 hs,
                                 Bind.bind, Except.bind]
                      simp [addConstraint, List.append_assoc]
              | some p =>
                  obtain ⟨af, bf⟩ := p
                  simp only [hp] at h ⊢
                  cases hs1 : specStructuralJoin fuel af bf with
                  | none => rw [hs1] at h; simp [Bind.bind, Option.bind] at h
                  | some p1 =>
                      obtain ⟨nested, cs1⟩ := p1
                      cases hs2 : specJoinLoop fuel f1 f2 rest with
                      | none =>
                          rw [hs1, hs2] at h
                          simp [Bind.bind, Option.bind] at h
                      | some p2 =>
                          obtain ⟨others, cs2⟩ := p2
                          rw [hs1, hs2] at h
                          simp only [Bind.bind, Option.bind, Option.some.injEq,
                                     Prod.mk.injEq] at h
                          obtain ⟨hf, hc⟩ := h
                          subst hf; subst hc
                          simp only [joinObjectTypes_spec fuel af bf st nested cs1 hs1,
                                     Bind.bind, Except.bind,
                                     joinFieldsLoop_spec fuel f1 f2 rest _ others cs2 hs2]
                          simp [List.append_assoc]
  termination_by structural fuel _ _ _ _ _ _ _ => fuel

end

/-- C7: an if-expression with both branches inferred feeds the branch
types to the join step; when both are records and the structural join has
at least one common field the result is the closed record over exactly
those fields with the join's constraints appended; when the join is empty
(no common fields) or either branch is not a record, an equality
constraint between the two branch types is emitted and the then-branch
type is returned. -/
theorem c7_conditional_structural_join :
    (∀ (fuel : Nat) (cond thenB elseE : Expr) (env : TypeEnv) (st : InferSt)
        (condT : Ty) (env1 : TypeEnv) (st1 : InferSt) (thenT : Ty)
        (env2 : TypeEnv) (st3 : InferSt) (elseT : Ty) (env3 : TypeEnv)
        (st4 : InferSt),
        inferExpr fuel cond env st = .ok (condT, env1, st1) →
        inferExpr fuel thenB env1 (addConstraint st1 condT .boolean)
          = .ok (thenT, env2, st3) →
        inferExpr fuel elseE env2 st3 = .ok (elseT, env3, st4) →
        inferExpr (fuel + 1) (.ifE cond thenB (some elseE)) env st
          = (inferIfJoin fuel thenT elseT st4).map (fun p => (p.1, env3, p.2))) ∧
    (∀ (fuel : Nat) (f1 f2 : List (String × Ty)) (r1 r2 : Option Nat)
        (st : InferSt) (fields : List (String × Ty)) (cs : List Constraint),
        fields ≠ [] →
        specStructuralJoin fuel f1 f2 = some (fields, cs) →
        inferIfJoin fuel (.object f1 r1) (.object f2 r2) st
          = .ok (.object fields none,
                 { st with constraints := st.constraints ++ cs })) ∧
    (∀ (fuel : Nat) (f1 f2 : List (String × Ty)) (r1 r2 : Option Nat)
        (st : InferSt) (cs : List Constraint),
        specStructuralJoin fuel f1 f2 = some ([], cs) →
        inferIfJoin fuel (.object f1 r1) (.object f2 r2) st
          = .ok (.object f1 r1,
                 addConstraint { st with constraints := st.constraints ++ cs }
                   (.object f1 r1) (.object f2 r2))) ∧
    (∀ (fuel : Nat) (thenT elseT : Ty) (st : InferSt),
        ((∀ f r, thenT ≠ .object f r) ∨ (∀ f r, elseT ≠ .object f r)) →
        inferIfJoin fuel thenT elseT st
          = .ok (thenT, addConstraint st thenT elseT)) := by
  refine ⟨?_, ?_, ?_, ?_⟩
  · intro fuel cond thenB elseE env st condT env1 st1 thenT env2 st3 elseT env3
      st4 h1 h2 h3
    simp only [inferExpr, h1, Bind.bind, Except.bind, h2, h3]
    cases hj : inferIfJoin fuel thenT elseT st4 with
    | ok p => simp [hj, Except.map]
    | error msg => simp [hj, Except.map]
  · intro fuel f1 f2 r1 r2 st fields cs hne hs
    simp only [inferIfJoin, joinObjectTypes_spec fuel f1 f2 st fields cs hs,
               Bind.bind, Except.bind]
    cases fields with
    | nil => exact absurd rfl hne
    | cons f fs => rfl
  · intro fuel f1 f2 r1 r2 st cs hs
    simp only [inferIfJoin, joinObjectTypes_spec fuel f1 f2 st [] cs hs,
               Bind.bind, Except.bind]
  · intro fuel thenT elseT st h
    cases thenT <;> cases elseT <;>
      first
      | rfl
      | (rcases h with h | h
         · exact absurd rfl (h _ _)
         · exact absurd rfl (h _ _))

/-- C7 witness: the four conjuncts applied at concrete inputs — a
number-branch conditional, a join with the common field `a`, a join with
no common field, and non-record branches. -/
theorem c7_witness :
    inferExpr 11 (.ifE (.boolLit true) (.numLit ⟨1, 1⟩)
        (some (.numLit ⟨2, 1⟩))) initialTypeEnv .init
      = (inferIfJoin 10 .number .number
          (addConstraint .init .boolean .boolean)).map
          (fun p => (p.1, initialTypeEnv, p.2)) ∧
    inferIfJoin 3 (.object [("a", .number)] none)
        (.object [("a", .number), ("b", .string)] none) .init
      = .ok (.object [("a", .number)] none,
             { InferSt.init with
                 constraints := InferSt.init.constraints ++ [⟨.number, .number⟩] }) ∧
    inferIfJoin 3 (.object [("a", .number)] none)
        (.object [("b", .number)] none) .init
      = .ok (.object [("a", .number)] none,
             addConstraint
               { InferSt.init with
                   constraints := InferSt.init.constraints ++ [] }
               (.object [("a", .number)] none) (.object [("b", .number)] none)) ∧
    inferIfJoin 5 .number .string .init
      = .ok (.number, addConstraint .init .number .string) :=
  ⟨c7_conditional_structural_join.1 10 (.boolLit true) (.numLit ⟨1, 1⟩)
     (.numLit ⟨2, 1⟩) initialTypeEnv .init .boolean initialTypeEnv .init
     .number initialTypeEnv (addConstraint .init .boolean .boolean)
     .number initialTypeEnv (addConstraint .init .boolean .boolean)
     rfl rfl rfl,
   c7_conditional_structural_join.2.1 3 [("a", .number)]
     [("a", .number), ("b", .string)] none none .init [("a", .number)]
     [⟨.number, .number⟩] (by simp) rfl,
   c7_conditional_structural_join.2.2.1 3 [("a", .number)] [("b", .number)]
     none none .init [] rfl,
   c7_conditional_structural_join.2.2.2 5 .number .string .init
     (Or.inl (fun f r h => nomatch h))⟩

/-! ## C6 infrastructure: the generalize/instantiate round trip.

`instantiate (generalize Γ τ)` replaces the quantified variables of τ by
fresh ones; the development below shows the result always unifies with τ.

Well-formedness captures what holds of every type the inferencer builds:
all variable ids are below the fresh-variable counter, row variables occur
only as row tails, and field names within one record are distinct. -/

mutual

def wfTy (c : Nat) : Ty → Bool
  | .tvar id => id < c
  | .rvar _ => false
  | .number => true
  | .string => true
  | .boolean => true
  | .null => true
  | .undefined => true
  | .unit => true
  | .array e => wfTy c e
  | .dict k v => wfTy c k && wfTy c v
  | .object fields rowVar =>
      (fieldNames fields).Nodup && wfFields c fields &&
        match rowVar with
        | some r => r < c
        | none => true
  | .fn ps r => wfList c ps && wfTy c r

def wfFields (c : Nat) : List (String × Ty) → Bool
  | [] => true
  | (_, t) :: rest => wfTy c t && wfFields c rest

def wfList (c : Nat) : List Ty → Bool
  | [] => true
  | t :: rest => wfTy c t && wfList c rest

end

mutual

/-- Fuel weight: an upper bound on the call depth `unify` needs. -/
def tyWeight : Ty → Nat
  | .array e => tyWeight e + 1
  | .dict k v => tyWeight k + tyWeight v + 2
  | .object fields _ => fieldsWeight fields + 3
  | .fn ps r => listWeight ps + tyWeight r + 3
  | _ => 1

def fieldsWeight : List (String × Ty) → Nat
  | [] => 1
  | (_, t) :: rest => tyWeight t + fieldsWeight rest + 1

def listWeight : List Ty → Nat
  | [] => 1
  | t :: rest => tyWeight t + listWeight rest + 1

end

theorem mem_addId {l : List Nat} {id x : Nat} :
    x ∈ addId l id ↔ x ∈ l ∨ x = id := by
  unfold addId
  split
  · constructor
    · exact Or.inl
    · rintro (h | rfl) <;> assumption
  · simp [or_comm]

theorem mem_unionIds {x : Nat} :
    ∀ {r l : List Nat}, x ∈ unionIds l r ↔ x ∈ l ∨ x ∈ r := by
  intro r
  induction r with
  | nil => simp [unionIds]
  | cons id rest ih =>
      intro l
      simp only [unionIds, ih, mem_addId, List.mem_cons]
      tauto

theorem nodup_addId {l : List Nat} {id : Nat} (h : l.Nodup) :
    (addId l id).Nodup := by
  unfold addId
  split
  · exact h
  · next hid => simp [List.nodup_append, h, hid]

theorem nodup_unionIds :
    ∀ {r l : List Nat}, l.Nodup → (unionIds l r).Nodup := by
  intro r
  induction r with
  | nil => intro l h; exact h
  | cons id rest ih => intro l h; exact ih (nodup_addId h)

mutual

theorem freeTypeVars_nodup : ∀ t : Ty, (freeTypeVars t).Nodup
  | .tvar _ => List.nodup_singleton _
  | .rvar _ => List.nodup_singleton _
  | .number => List.nodup_nil
  | .string => List.nodup_nil
  | .boolean => List.nodup_nil
  | .null => List.nodup_nil
  | .undefined => List.nodup_nil
  | .unit => List.nodup_nil
  | .array e => freeTypeVars_nodup e
  | .dict k v => by
      simp only [freeTypeVars]
      exact nodup_unionIds (freeTypeVars_nodup k)
  | .object fields rowVar => by
      simp only [freeTypeVars]
      cases rowVar with
      | some r => exact nodup_addId (freeFieldVars_nodup fields)
      | none => exact freeFieldVars_nodup fields
  | .fn ps r => by
      simp only [freeTypeVars]
      exact nodup_unionIds (freeParamVars_nodup ps)

theorem freeFieldVars_nodup : ∀ fs : List (String × Ty), (freeFieldVars fs).Nodup
  | [] => List.nodup_nil
  | (_, t) :: rest => by
      simp only [freeFieldVars]
      exact nodup_unionIds (freeTypeVars_nodup t)

theorem freeParamVars_nodup : ∀ ts : List Ty, (freeParamVars ts).Nodup
  | [] => List.nodup_nil
  | t :: rest => by
      simp only [freeParamVars]
      exact nodup_unionIds (freeTypeVars_nodup t)

end

mutual

theorem freeTypeVars_lt {c : Nat} :
    ∀ (t : Ty), wfTy c t = true → ∀ x ∈ freeTypeVars t, x < c
  | .tvar id, h, x, hx => by
      simp [freeTypeVars] at hx
      subst hx
      simpa [wfTy] using h
  | .rvar _, h, _, _ => by simp [wfTy] at h
  | .number, _, x, hx => by simp [freeTypeVars] at hx
  | .string, _, x, hx => by simp [freeTypeVars] at hx
  | .boolean, _, x, hx => by simp [freeTypeVars] at hx
  | .null, _, x, hx => by simp [freeTypeVars] at hx
  | .undefined, _, x, hx => by simp [freeTypeVars] at hx
  | .unit, _, x, hx => by simp [freeTypeVars] at hx
  | .array e, h, x, hx => freeTypeVars_lt e (by simpa [wfTy] using h) x hx
  | .dict k v, h, x, hx => by
      simp only [wfTy, Bool.and_eq_true] at h
      simp only [freeTypeVars, mem_unionIds] at hx
      rcases hx with hx | hx
      · exact freeTypeVars_lt k h.1 x hx
      · exact freeTypeVars_lt v h.2 x hx
  | .object fields rowVar, h, x, hx => by
      simp only [wfTy, Bool.and_eq_true] at h
      simp only [freeTypeVars] at hx
      cases rowVar with
      | some r =>
          rw [mem_addId] at hx
          rcases hx with hx | rfl
          · exact freeFieldVars_lt fields h.1.2 x hx
          · simpa using h.2
      | none => exact freeFieldVars_lt fields h.1.2 x hx
  | .fn ps r, h, x, hx => by
      simp only [wfTy, Bool.and_eq_true] at h
      simp only [freeTypeVars, mem_unionIds] at hx
      rcases hx with hx | hx
      · exact freeParamVars_lt ps h.1 x hx
      · exact freeTypeVars_lt r h.2 x hx
  termination_by structural t => t

theorem freeFieldVars_lt {c : Nat} :
    ∀ (fs : List (String × Ty)), wfFields c fs = true →
      ∀ x ∈ freeFieldVars fs, x < c
  | [], _, x, hx => by simp [freeFieldVars] at hx
  | (_, t) :: rest, h, x, hx => by
      simp only [wfFields, Bool.and_eq_true] at h
      simp only [freeFieldVars, mem_unionIds] at hx
      rcases hx with hx | hx
      · exact freeTypeVars_lt t h.1 x hx
      · exact freeFieldVars_lt rest h.2 x hx
  termination_by structural fs => fs

theorem freeParamVars_lt {c : Nat} :
    ∀ (ts : List Ty), wfList c ts = true → ∀ x ∈ freeParamVars ts, x < c
  | [], _, x, hx => by simp [freeParamVars] at hx
  | t :: rest, h, x, hx => by
      simp only [wfList, Bool.and_eq_true] at h
      simp only [freeParamVars, mem_unionIds] at hx
      rcases hx with hx | hx
      · exact freeTypeVars_lt t h.1 x hx
      · exact freeParamVars_lt rest h.2 x hx
  termination_by structural ts => ts

end

/-- The substitution `instantiate` folds up: each quantified id in order is
mapped to the next fresh variable. -/
def renList : List Nat → Nat → Subst
  | [], _ => []
  | q :: rest, c0 => (q, .tvar c0) :: renList rest (c0 + 1)

theorem subGet_append_left {s1 s2 : Subst} {k : Nat} {t : Ty}
    (h : subGet s1 k = some t) : subGet (s1 ++ s2) k = some t := by
  induction s1 with
  | nil => simp [subGet] at h
  | cons p rest ih =>
      obtain ⟨k0, t0⟩ := p
      simp only [subGet, List.cons_append] at h ⊢
      split at h <;> simp_all [subGet]

theorem subGet_append_right {s1 s2 : Subst} {k : Nat}
    (h : subGet s1 k = none) : subGet (s1 ++ s2) k = subGet s2 k := by
  induction s1 with
  | nil => simp
  | cons p rest ih =>
      obtain ⟨k0, t0⟩ := p
      simp only [subGet, List.cons_append] at h ⊢
      split at h
      · exact absurd h (by simp)
      · next hne => simp only [subGet, if_neg hne]; exact ih h

theorem subSet_of_subGet_none {s : Subst} {k : Nat} {t : Ty}
    (h : subGet s k = none) : subSet s k t = s ++ [(k, t)] := by
  induction s with
  | nil => rfl
  | cons p rest ih =>
      obtain ⟨k0, t0⟩ := p
      simp only [subGet] at h
      split at h
      · exact absurd h (by simp)
      · next hne => simp only [subSet, if_neg hne, List.cons_append, ih h]

/-- The instantiation fold, with explicit accumulator. -/
theorem instantiate_foldl (qs : List Nat) :
    ∀ (s0 : Subst) (c0 : Nat), qs.Nodup → (∀ q ∈ qs, subGet s0 q = none) →
    qs.foldl (fun (acc : Subst × Nat) q => (subSet acc.1 q (.tvar acc.2), acc.2 + 1))
        (s0, c0)
      = (s0 ++ renList qs c0, c0 + qs.length) := by
  induction qs with
  | nil => intro s0 c0 _ _; simp [renList]
  | cons q rest ih =>
      intro s0 c0 hnd hnone
      simp only [List.foldl_cons]
      rw [subSet_of_subGet_none (hnone q (List.mem_cons_self q rest))]
      have hnone2 : ∀ q2 ∈ rest, subGet (s0 ++ [(q, Ty.tvar c0)]) q2 = none := by
        intro q2 hq2
        have hne : q ≠ q2 := by
          intro hcontra
          subst hcontra
          exact (List.nodup_cons.mp hnd).1 hq2
        rw [subGet_append_right (hnone q2 (List.mem_cons_of_mem q hq2))]
        simp [subGet, hne]
      rw [ih (s0 ++ [(q, Ty.tvar c0)]) (c0 + 1) hnd.of_cons hnone2]
      simp [renList, List.append_assoc, Nat.add_comm, Nat.add_assoc,
            Nat.add_left_comm]

theorem renList_subGet_shape :
    ∀ (qs : List Nat) (c0 q : Nat) (t : Ty), subGet (renList qs c0) q = some t →
    q ∈ qs ∧ ∃ f, t = .tvar f ∧ c0 ≤ f
  | [], c0, q, t, h => by simp [renList, subGet] at h
  | q0 :: rest, c0, q, t, h => by
      simp only [renList, subGet] at h
      split at h
      · next heq =>
          subst heq
          obtain rfl : Ty.tvar c0 = t := by simpa using h
          exact ⟨List.mem_cons_self q0 rest, c0, rfl, Nat.le_refl c0⟩
      · obtain ⟨hmem, f, rfl, hf⟩ := renList_subGet_shape rest (c0 + 1) q t h
        exact ⟨List.mem_cons_of_mem q0 hmem, f, rfl,
               Nat.le_of_succ_le hf⟩

theorem renList_inj :
    ∀ (qs : List Nat) (c0 q1 q2 f : Nat),
    subGet (renList qs c0) q1 = some (.tvar f) →
    subGet (renList qs c0) q2 = some (.tvar f) → q1 = q2
  | [], c0, q1, q2, f, h1, _ => by simp [renList, subGet] at h1
  | q0 :: rest, c0, q1, q2, f, h1, h2 => by
      simp only [renList, subGet] at h1 h2
      split at h1 <;> split at h2
      · next he1 he2 => rw [← he1, ← he2]
      · next he1 he2 =>
          obtain rfl : c0 = f := by
            injection h1 with h0
            injection h0
          obtain ⟨_, f2, hf2, hge⟩ := renList_subGet_shape rest (c0 + 1) q2 _ h2
          cases hf2
          omega
      · next he1 he2 =>
          obtain rfl : c0 = f := by
            injection h2 with h0
            injection h0
          obtain ⟨_, f2, hf2, hge⟩ := renList_subGet_shape rest (c0 + 1) q1 _ h1
          cases hf2
          omega
      · exact renList_inj rest (c0 + 1) q1 q2 f h1 h2

mutual

/-- `u RenRel σ-relates to t` when `u` is `t` with some variable leaves
renamed through σ (whose images are always type variables). -/
inductive RenRel (σ : Subst) : Ty → Ty → Prop where
  | var_same (q : Nat) : RenRel σ (.tvar q) (.tvar q)
  | var_ren (q f : Nat) (h : subGet σ q = some (.tvar f)) :
      RenRel σ (.tvar f) (.tvar q)
  | number : RenRel σ .number .number
  | string : RenRel σ .string .string
  | boolean : RenRel σ .boolean .boolean
  | null : RenRel σ .null .null
  | undefined : RenRel σ .undefined .undefined
  | unit : RenRel σ .unit .unit
  | array {a b : Ty} (h : RenRel σ a b) : RenRel σ (.array a) (.array b)
  | dict {k1 v1 k2 v2 : Ty} (hk : RenRel σ k1 k2) (hv : RenRel σ v1 v2) :
      RenRel σ (.dict k1 v1) (.dict k2 v2)
  | object {fs1 fs2 : List (String × Ty)} {tail : Option Nat}
      (hf : RenRelFields σ fs1 fs2) :
      RenRel σ (.object fs1 tail) (.object fs2 tail)
  | fn {ps1 ps2 : List Ty} {r1 r2 : Ty} (hp : RenRelList σ ps1 ps2)
      (hr : RenRel σ r1 r2) : RenRel σ (.fn ps1 r1) (.fn ps2 r2)

inductive RenRelFields (σ : Subst) :
    List (String × Ty) → List (String × Ty) → Prop where
  | nil : RenRelFields σ [] []
  | cons (k : String) {t1 t2 : Ty} {r1 r2 : List (String × Ty)}
      (ht : RenRel σ t1 t2) (hr : RenRelFields σ r1 r2) :
      RenRelFields σ ((k, t1) :: r1) ((k, t2) :: r2)

inductive RenRelList (σ : Subst) : List Ty → List Ty → Prop where
  | nil : RenRelList σ [] []
  | cons {t1 t2 : Ty} {r1 r2 : List Ty} (ht : RenRel σ t1 t2)
      (hr : RenRelList σ r1 r2) : RenRelList σ (t1 :: r1) (t2 :: r2)

end

/-- A valid renaming for counter `c`: sources below, images fresh type
variables, and no two sources share an image. -/
def Ren (c : Nat) (σ : Subst) : Prop :=
  (∀ p ∈ σ, p.1 < c ∧ ∃ f, p.2 = Ty.tvar f ∧ c ≤ f) ∧
  (∀ q1 q2 f, subGet σ q1 = some (.tvar f) →
      subGet σ q2 = some (.tvar f) → q1 = q2)

/-- The invariant of the substitutions `unify` accumulates while undoing a
renaming: every entry sends a fresh variable back to the source variable
that σ renamed to it. -/
def AccM (c : Nat) (σ s : Subst) : Prop :=
  ∀ p ∈ s, c ≤ p.1 ∧ ∃ q, p.2 = Ty.tvar q ∧ q < c ∧
    subGet σ q = some (.tvar p.1)

theorem subGet_mem : ∀ {s : Subst} {k : Nat} {t : Ty},
    subGet s k = some t → (k, t) ∈ s
  | [], _, _, h => by simp [subGet] at h
  | (k0, t0) :: rest, k, t, h => by
      simp only [subGet] at h
      split at h
      · next he =>
          subst he
          obtain rfl : t0 = t := by simpa using h
          exact List.mem_cons_self _ _
      · exact List.mem_cons_of_mem _ (subGet_mem h)

theorem accM_subGet_none {c : Nat} {σ s : Subst} (hacc : AccM c σ s)
    {q : Nat} (hq : q < c) : subGet s q = none := by
  cases hg : subGet s q with
  | none => rfl
  | some t =>
      have := (hacc _ (subGet_mem hg)).1
      omega

mutual

theorem applySub_nil : ∀ t : Ty, applySubstitution [] t = t
  | .tvar _ => rfl
  | .rvar _ => rfl
  | .number => rfl
  | .string => rfl
  | .boolean => rfl
  | .null => rfl
  | .undefined => rfl
  | .unit => rfl
  | .array e => by simp [applySubstitution, applySub_nil e]
  | .dict k v => by simp [applySubstitution, applySub_nil k, applySub_nil v]
  | .object fields rowVar => by
      simp only [applySubstitution, applySubFields_nil fields]
      cases rowVar <;> simp [applyRowSubstitution, subGet]
  | .fn ps r => by simp [applySubstitution, applySubList_nil ps, applySub_nil r]

theorem applySubFields_nil : ∀ fs : List (String × Ty), applySubFields [] fs = fs
  | [] => rfl
  | (k, t) :: rest => by
      simp [applySubFields, applySub_nil t, applySubFields_nil rest]

theorem applySubList_nil : ∀ ts : List Ty, applySubList [] ts = ts
  | [] => rfl
  | t :: rest => by simp [applySubList, applySub_nil t, applySubList_nil rest]

end

theorem compose_nil (s : Subst) : composeSubstitutions [] s = s := by
  simp only [composeSubstitutions, List.filter_nil, List.append_nil]
  conv_rhs => rw [← List.map_id s]
  exact List.map_congr_left (fun p _ => by simp [applySub_nil])

mutual

/-- Applying an accumulated inverse renaming leaves a type whose variables
are all below the counter unchanged. -/
theorem applySub_noop {c : Nat} {s σ : Subst} (hacc : AccM c σ s) :
    ∀ (t : Ty), wfTy c t = true → applySubstitution s t = t
  | .tvar id, h => by
      simp only [wfTy, decide_eq_true_eq] at h
      simp [applySubstitution, accM_subGet_none hacc h]
  | .rvar _, h => by simp [wfTy] at h
  | .number, _ => rfl
  | .string, _ => rfl
  | .boolean, _ => rfl
  | .null, _ => rfl
  | .undefined, _ => rfl
  | .unit, _ => rfl
  | .array e, h => by
      simp only [wfTy] at h
      simp [applySubstitution, applySub_noop hacc e h]
  | .dict k v, h => by
      simp only [wfTy, Bool.and_eq_true] at h
      simp [applySubstitution, applySub_noop hacc k h.1, applySub_noop hacc v h.2]
  | .object fields rowVar, h => by
      simp only [wfTy, Bool.and_eq_true] at h
      simp only [applySubstitution, applySubFields_noop hacc fields h.1.2]
      cases rowVar with
      | none => rfl
      | some r =>
          have hr : r < c := by simpa using h.2
          simp [applyRowSubstitution, accM_subGet_none hacc hr]
  | .fn ps r, h => by
      simp only [wfTy, Bool.and_eq_true] at h
      simp [applySubstitution, applySubList_noop hacc ps h.1,
            applySub_noop hacc r h.2]
  termination_by structural t => t

theorem applySubFields_noop {c : Nat} {s σ : Subst} (hacc : AccM c σ s) :
    ∀ (fs : List (String × Ty)), wfFields c fs = true → applySubFields s fs = fs
  | [], _ => rfl
  | (k, t) :: rest, h => by
      simp only [wfFields, Bool.and_eq_true] at h
      simp [applySubFields, applySub_noop hacc t h.1,
            applySubFields_noop hacc rest h.2]
  termination_by structural fs => fs

theorem applySubList_noop {c : Nat} {s σ : Subst} (hacc : AccM c σ s) :
    ∀ (ts : List Ty), wfList c ts = true → applySubList s ts = ts
  | [], _ => rfl
  | t :: rest, h => by
      simp only [wfList, Bool.and_eq_true] at h
      simp [applySubList, applySub_noop hacc t h.1,
            applySubList_noop hacc rest h.2]
  termination_by structural ts => ts

end

theorem accM_nil {c : Nat} {σ : Subst} : AccM c σ [] := by
  intro p hp
  simp at hp

theorem accM_compose {c : Nat} {σ m s : Subst} (hm : AccM c σ m)
    (hs : AccM c σ s) : AccM c σ (composeSubstitutions m s) := by
  intro p hp
  rcases List.mem_append.mp hp with hp | hp
  · obtain ⟨q, hq, rfl⟩ := List.mem_map.mp hp
    obtain ⟨hk, q0, himg, hq0, hσ⟩ := hs q hq
    rw [himg]
    refine ⟨hk, q0, ?_, hq0, hσ⟩
    simp [applySubstitution, accM_subGet_none hm hq0]
  · exact hm p (List.mem_filter.mp hp).1

mutual

/-- Un-renaming through an accumulated substitution keeps the renaming
relation (fresh images either stay or collapse back to their sources). -/
theorem renRel_applySub {c : Nat} {σ acc : Subst}
    (hinj : ∀ q1 q2 f, subGet σ q1 = some (.tvar f) →
        subGet σ q2 = some (.tvar f) → q1 = q2)
    (hacc : AccM c σ acc) :
    ∀ {u t : Ty}, RenRel σ u t → wfTy c t = true →
      RenRel σ (applySubstitution acc u) t
  | _, _, .var_same q, hwf => by
      have hq : q < c := by simpa [wfTy] using hwf
      simpa [applySubstitution, accM_subGet_none hacc hq] using
        @RenRel.var_same σ q
  | _, _, .var_ren q f hσ, hwf => by
      cases hg : subGet acc f with
      | none =>
          simpa [applySubstitution, hg] using RenRel.var_ren q f hσ
      | some img =>
          obtain ⟨_, q0, rfl, hq0, hσ0⟩ := hacc _ (subGet_mem hg)
          obtain rfl : q0 = q := hinj q0 q f hσ0 hσ
          simpa [applySubstitution, hg] using @RenRel.var_same σ q0
  | _, _, .number, _ => .number
  | _, _, .string, _ => .string
  | _, _, .boolean, _ => .boolean
  | _, _, .null, _ => .null
  | _, _, .undefined, _ => .undefined
  | _, _, .unit, _ => .unit
  | _, _, .array h, hwf => by
      simp only [wfTy] at hwf
      simpa [applySubstitution] using
        RenRel.array (renRel_applySub hinj hacc h hwf)
  | _, _, .dict hk hv, hwf => by
      simp only [wfTy, Bool.and_eq_true] at hwf
      simpa [applySubstitution] using
        RenRel.dict (renRel_applySub hinj hacc hk hwf.1)
          (renRel_applySub hinj hacc hv hwf.2)
  | _, _, @RenRel.object _ _ _ tail hf, hwf => by
      simp only [wfTy, Bool.and_eq_true] at hwf
      have hfields := renRelFields_applySub hinj hacc hf hwf.1.2
      cases tail with
      | none => simpa [applySubstitution] using RenRel.object hfields
      | some r =>
          have hr : r < c := by simpa using hwf.2
          simpa [applySubstitution, applyRowSubstitution,
                 accM_subGet_none hacc hr] using RenRel.object hfields
  | _, _, .fn hp hr, hwf => by
      simp only [wfTy, Bool.and_eq_true] at hwf
      simpa [applySubstitution] using
        RenRel.fn (renRelList_applySub hinj hacc hp hwf.1)
          (renRel_applySub hinj hacc hr hwf.2)

theorem renRelFields_applySub {c : Nat} {σ acc : Subst}
    (hinj : ∀ q1 q2 f, subGet σ q1 = some (.tvar f) →
        subGet σ q2 = some (.tvar f) → q1 = q2)
    (hacc : AccM c σ acc) :
    ∀ {fs1 fs2 : List (String × Ty)}, RenRelFields σ fs1 fs2 →
      wfFields c fs2 = true → RenRelFields σ (applySubFields acc fs1) fs2
  | _, _, .nil, _ => .nil
  | _, _, .cons k ht hr, hwf => by
      simp only [wfFields, Bool.and_eq_true] at hwf
      simpa [applySubFields] using
        RenRelFields.cons k (renRel_applySub hinj hacc ht hwf.1)
          (renRelFields_applySub hinj hacc hr hwf.2)

theorem renRelList_applySub {c : Nat} {σ acc : Subst}
    (hinj : ∀ q1 q2 f, subGet σ q1 = some (.tvar f) →
        subGet σ q2 = some (.tvar f) → q1 = q2)
    (hacc : AccM c σ acc) :
    ∀ {ts1 ts2 : List Ty}, RenRelList σ ts1 ts2 → wfList c ts2 = true →
      RenRelList σ (applySubList acc ts1) ts2
  | _, _, .nil, _ => .nil
  | _, _, .cons ht hr, hwf => by
      simp only [wfList, Bool.and_eq_true] at hwf
      simpa [applySubList] using
        RenRelList.cons (renRel_applySub hinj hacc ht hwf.1)
          (renRelList_applySub hinj hacc hr hwf.2)

end

mutual

/-- Instantiation through a valid renaming relates to the original type. -/
theorem renRel_of_applySub {c : Nat} {σ : Subst} (hren : Ren c σ) :
    ∀ (t : Ty), wfTy c t = true → RenRel σ (applySubstitution σ t) t
  | .tvar q, _ => by
      cases hg : subGet σ q with
      | none => simpa [applySubstitution, hg] using @RenRel.var_same σ q
      | some img =>
          obtain ⟨_, f, rfl, _⟩ := hren.1 _ (subGet_mem hg)
          simpa [applySubstitution, hg] using RenRel.var_ren q f hg
  | .rvar _, h => by simp [wfTy] at h
  | .number, _ => .number
  | .string, _ => .string
  | .boolean, _ => .boolean
  | .null, _ => .null
  | .undefined, _ => .undefined
  | .unit, _ => .unit
  | .array e, h => by
      simp only [wfTy] at h
      simpa [applySubstitution] using
        RenRel.array (renRel_of_applySub hren e h)
  | .dict k v, h => by
      simp only [wfTy, Bool.and_eq_true] at h
      simpa [applySubstitution] using
        RenRel.dict (renRel_of_applySub hren k h.1) (renRel_of_applySub hren v h.2)
  | .object fields rowVar, h => by
      simp only [wfTy, Bool.and_eq_true] at h
      have hfields := renRelFields_of_applySub hren fields h.1.2
      cases rowVar with
      | none => simpa [applySubstitution] using RenRel.object hfields
      | some r =>
          have : applyRowSubstitution σ r = r := by
            cases hg : subGet σ r with
            | none => simp [applyRowSubstitution, hg]
            | some img =>
                obtain ⟨_, f, rfl, _⟩ := hren.1 _ (subGet_mem hg)
                simp [applyRowSubstitution, hg]
          simpa [applySubstitution, this] using RenRel.object hfields
  | .fn ps r, h => by
      simp only [wfTy, Bool.and_eq_true] at h
      simpa [applySubstitution] using
        RenRel.fn (renRelList_of_applySub hren ps h.1)
          (renRel_of_applySub hren r h.2)
  termination_by structural t => t

theorem renRelFields_of_applySub {c : Nat} {σ : Subst} (hren : Ren c σ) :
    ∀ (fs : List (String × Ty)), wfFields c fs = true →
      RenRelFields σ (applySubFields σ fs) fs
  | [], _ => .nil
  | (k, t) :: rest, h => by
      simp only [wfFields, Bool.and_eq_true] at h
      simpa [applySubFields] using
        RenRelFields.cons k (renRel_of_applySub hren t h.1)
          (renRelFields_of_applySub hren rest h.2)
  termination_by structural fs => fs

theorem renRelList_of_applySub {c : Nat} {σ : Subst} (hren : Ren c σ) :
    ∀ (ts : List Ty), wfList c ts = true →
      RenRelList σ (applySubList σ ts) ts
  | [], _ => .nil
  | t :: rest, h => by
      simp only [wfList, Bool.and_eq_true] at h
      simpa [applySubList] using
        RenRelList.cons (renRel_of_applySub hren t h.1)
          (renRelList_of_applySub hren rest h.2)
  termination_by structural ts => ts

end

theorem renRelFields_names {σ : Subst} :
    ∀ {fs1 fs2 : List (String × Ty)}, RenRelFields σ fs1 fs2 →
      fieldNames fs1 = fieldNames fs2
  | _, _, .nil => rfl
  | _, _, .cons k ht hr => by
      simp [fieldNames] at *
      exact renRelFields_names hr

theorem renRelList_length {σ : Subst} :
    ∀ {ts1 ts2 : List Ty}, RenRelList σ ts1 ts2 → ts1.length = ts2.length
  | _, _, .nil => rfl
  | _, _, .cons ht hr => by simp [renRelList_length hr]

theorem renRelFields_snds {σ : Subst} :
    ∀ {fs1 fs2 : List (String × Ty)}, RenRelFields σ fs1 fs2 →
      RenRelList σ (fs1.map Prod.snd) (fs2.map Prod.snd)
  | _, _, .nil => .nil
  | _, _, .cons k ht hr => by
      simpa using RenRelList.cons ht (renRelFields_snds hr)

theorem wfFields_snds {c : Nat} :
    ∀ {fs : List (String × Ty)}, wfFields c fs = true →
      wfList c (fs.map Prod.snd) = true
  | [], _ => rfl
  | (k, t) :: rest, h => by
      simp only [wfFields, Bool.and_eq_true] at h
      simpa [wfList] using ⟨h.1, wfFields_snds h.2⟩

theorem listWeight_snds :
    ∀ fs : List (String × Ty), listWeight (fs.map Prod.snd) = fieldsWeight fs
  | [] => rfl
  | (k, t) :: rest => by simp [listWeight, fieldsWeight, listWeight_snds rest]

theorem filterMap_lookupField :
    ∀ fs : List (String × Ty), (fieldNames fs).Nodup →
      (fieldNames fs).filterMap (lookupField fs) = fs.map Prod.snd
  | [], _ => rfl
  | (k, t) :: rest, h => by
      simp only [fieldNames, List.map_cons, List.nodup_cons] at h
      simp only [fieldNames, List.map_cons, List.filterMap_cons]
      have hk : lookupField ((k, t) :: rest) k = some t := by
        simp [lookupField]
      rw [hk]
      have hcongr : (rest.map Prod.fst).filterMap (lookupField ((k, t) :: rest))
          = (rest.map Prod.fst).filterMap (lookupField rest) := by
        refine List.filterMap_congr ?_
        intro a ha
        have hne : k ≠ a := by
          intro hcontra
          subst hcontra
          exact h.1 ha
        simp [lookupField, hne]
      rw [hcongr]
      have := filterMap_lookupField rest h.2
      simp only [fieldNames] at this
      simp [this]

theorem tyWeight_pos : ∀ t : Ty, 1 ≤ tyWeight t := by
  intro t
  cases t <;> simp [tyWeight]

theorem listWeight_pos : ∀ ts : List Ty, 1 ≤ listWeight ts := by
  intro ts
  cases ts with
  | nil => simp [listWeight]
  | cons t rest => simp only [listWeight]; omega

theorem fieldsWeight_pos : ∀ fs : List (String × Ty), 1 ≤ fieldsWeight fs := by
  intro fs
  cases fs with
  | nil => simp [fieldsWeight]
  | cons p rest => obtain ⟨k, t⟩ := p; simp only [fieldsWeight]; omega

/-- Core of C6: `unify` succeeds on any type against a σ-renaming of it,
and the substitutions it accumulates always invert the renaming. -/
theorem unify_renamed_main {c : Nat} {σ : Subst} (hren : Ren c σ) :
    ∀ fuel : Nat,
      (∀ u t, RenRel σ u t → wfTy c t = true → tyWeight t ≤ fuel →
        ∃ m, unify fuel u t = .ok m ∧ AccM c σ m) ∧
      (∀ ls ts acc, RenRelList σ ls ts → wfList c ts = true → AccM c σ acc →
        listWeight ts ≤ fuel →
        ∃ s2, unifyPairs fuel ls ts acc = .ok s2 ∧ AccM c σ s2) := by
  intro fuel
  induction fuel using Nat.strong_induction_on with
  | _ fuel IH =>
  constructor
  · intro u t hrel hwf hfw
    obtain ⟨f, rfl⟩ : ∃ f, fuel = f + 1 :=
      ⟨fuel - 1, by have := tyWeight_pos t; omega⟩
    cases hEq : typesEqual u t with
    | true => exact ⟨[], by simp [unify, hEq], accM_nil⟩
    | false =>
      cases hrel with
      | var_same q => simp [typesEqual] at hEq
      | var_ren q f0 hσ =>
          have hq : q < c := by simpa [wfTy] using hwf
          have hf0 : c ≤ f0 := by
            obtain ⟨_, g, hg, hge⟩ := hren.1 _ (subGet_mem hσ)
            injection hg with h0
            omega
          have hne : f0 ≠ q := by omega
          refine ⟨[(f0, .tvar q)], ?_, ?_⟩
          · simp [unify, hEq, unifyVariable, hne, occursCheck, freeTypeVars]
          · intro p hp
            simp only [List.mem_singleton] at hp
            subst hp
            exact ⟨hf0, q, rfl, hq, hσ⟩
      | number => simp [typesEqual] at hEq
      | string => simp [typesEqual] at hEq
      | boolean => simp [typesEqual] at hEq
      | null => simp [typesEqual] at hEq
      | undefined => simp [typesEqual] at hEq
      | unit => simp [typesEqual] at hEq
      | @array a b h =>
          have hwb : wfTy c b = true := by simpa [wfTy] using hwf
          have hfb : tyWeight b ≤ f := by simp only [tyWeight] at hfw; omega
          obtain ⟨m, hm, haccm⟩ := (IH f (by omega)).1 a b h hwb hfb
          exact ⟨m, by simp [unify, hEq, hm], haccm⟩
      | @dict k1 v1 k2 v2 hk hv =>
          simp only [wfTy, Bool.and_eq_true] at hwf
          simp only [tyWeight] at hfw
          have hfk : tyWeight k2 ≤ f := by omega
          have hfv : tyWeight v2 ≤ f := by omega
          obtain ⟨m1, hm1, hacc1⟩ := (IH f (by omega)).1 k1 k2 hk hwf.1 hfk
          have hnoop : applySubstitution m1 v2 = v2 :=
            applySub_noop hacc1 v2 hwf.2
          have hrel2 : RenRel σ (applySubstitution m1 v1) v2 :=
            renRel_applySub hren.2 hacc1 hv hwf.2
          obtain ⟨m2, hm2, hacc2⟩ := (IH f (by omega)).1 _ v2 hrel2 hwf.2 hfv
          refine ⟨composeSubstitutions m2 m1, ?_, accM_compose hacc2 hacc1⟩
          simp only [unify, hEq, hm1, Bind.bind, Except.bind, hnoop, hm2]
          simp
      | @object fs1 fs2 tail hfds =>
          simp only [wfTy, Bool.and_eq_true, decide_eq_true_eq] at hwf
          simp only [tyWeight] at hfw
          have hnames : fieldNames fs1 = fieldNames fs2 := renRelFields_names hfds
          have hnodup2 : (fieldNames fs2).Nodup := hwf.1.1
          obtain ⟨f2, rfl⟩ : ∃ f2, f = f2 + 1 :=
            ⟨f - 1, by have := fieldsWeight_pos fs2; omega⟩
          have hco : (fieldNames fs1).filter (fun k => k ∈ fieldNames fs2)
              = fieldNames fs2 := by
            rw [hnames]
            exact List.filter_eq_self.mpr (fun a ha => by simpa using ha)
          have hleft : (fieldNames fs2).filterMap (lookupField fs1)
              = fs1.map Prod.snd := by
            rw [← hnames]
            exact filterMap_lookupField fs1 (hnames ▸ hnodup2)
          have hright : (fieldNames fs2).filterMap (lookupField fs2)
              = fs2.map Prod.snd := filterMap_lookupField fs2 hnodup2
          have honly1 : (fieldNames fs1).filter
              (fun k => k ∉ fieldNames fs2) = [] := by
            rw [hnames, List.filter_eq_nil_iff]
            intro a ha
            simp [ha]
          have honly2 : (fieldNames fs2).filter
              (fun k => k ∉ fieldNames fs2) = [] := by
            rw [List.filter_eq_nil_iff]
            intro a ha
            simp [ha]
          obtain ⟨s, hs, haccs⟩ := (IH f2 (by omega)).2
            (fs1.map Prod.snd) (fs2.map Prod.snd) []
            (renRelFields_snds hfds) (wfFields_snds hwf.1.2) accM_nil
            (by rw [listWeight_snds]; omega)
          cases tail with
          | none =>
              refine ⟨s, ?_, haccs⟩
              simp only [unify, hEq, unifyObjectWithRows, hco, hleft, hright,
                         honly1, honly2, hs, Bind.bind, Except.bind]
              simp
          | some a =>
              refine ⟨s, ?_, haccs⟩
              simp only [unify, hEq, unifyObjectWithRows, hco, hleft, hright,
                         honly1, honly2, hs, Bind.bind, Except.bind]
              simp [unifyRowVariable, compose_nil]
      | @fn ps1 ps2 r1 r2 hp hr =>
          simp only [wfTy, Bool.and_eq_true] at hwf
          simp only [tyWeight] at hfw
          have hlen : ps1.length = ps2.length := renRelList_length hp
          obtain ⟨f2, rfl⟩ : ∃ f2, f = f2 + 1 :=
            ⟨f - 1, by have := listWeight_pos ps2; have := tyWeight_pos r2; omega⟩
          obtain ⟨s, hs, haccs⟩ := (IH f2 (by omega)).2 ps1 ps2 [] hp hwf.1
            accM_nil (by omega)
          have hnoop : applySubstitution s r2 = r2 := applySub_noop haccs r2 hwf.2
          have hrel2 : RenRel σ (applySubstitution s r1) r2 :=
            renRel_applySub hren.2 haccs hr hwf.2
          obtain ⟨rm, hrm, haccrm⟩ := (IH f2 (by omega)).1 _ r2 hrel2 hwf.2
            (by omega)
          refine ⟨composeSubstitutions rm s, ?_, accM_compose haccrm haccs⟩
          simp only [unify, hEq, unifyFunction, hlen, ne_eq, not_true_eq_false,
                     if_false, hs, Bind.bind, Except.bind, hnoop, hrm]
          simp
  · intro ls ts acc hrel hwf hacc hfw
    obtain ⟨f, rfl⟩ : ∃ f, fuel = f + 1 :=
      ⟨fuel - 1, by have := listWeight_pos ts; omega⟩
    cases hrel with
    | nil => exact ⟨acc, by simp [unifyPairs], hacc⟩
    | @cons a b ls2 ts2 ht hrl =>
        simp only [wfList, Bool.and_eq_true] at hwf
        simp only [listWeight] at hfw
        have hnoop : applySubstitution acc b = b := applySub_noop hacc b hwf.1
        have hrel2 : RenRel σ (applySubstitution acc a) b :=
          renRel_applySub hren.2 hacc ht hwf.1
        obtain ⟨m, hm, haccm⟩ := (IH f (by omega)).1 _ b hrel2 hwf.1 (by omega)
        obtain ⟨s2, hs2, hacc2⟩ := (IH f (by omega)).2 ls2 ts2
          (composeSubstitutions m acc) hrl hwf.2 (accM_compose haccm hacc)
          (by omega)
        exact ⟨s2, by
          simp only [unifyPairs, hnoop, hm, Bind.bind, Except.bind, hs2], hacc2⟩

theorem renList_mem_shape :
    ∀ (qs : List Nat) (c0 : Nat) (p : Nat × Ty), p ∈ renList qs c0 →
      p.1 ∈ qs ∧ ∃ f, p.2 = Ty.tvar f ∧ c0 ≤ f
  | [], _, _, h => by simp [renList] at h
  | q :: rest, c0, p, h => by
      simp only [renList, List.mem_cons] at h
      rcases h with rfl | h
      · exact ⟨List.mem_cons_self q rest, c0, rfl, Nat.le_refl c0⟩
      · obtain ⟨hmem, f, himg, hf⟩ := renList_mem_shape rest (c0 + 1) p h
        exact ⟨List.mem_cons_of_mem q hmem, f, himg, Nat.le_of_succ_le hf⟩

/-- C6: for every type environment and every well-formed type whose
variables are below the fresh counter, instantiating its generalization
unifies with the original type (from the empty substitution, which is how
`solveConstraints` starts). -/
theorem c6_instantiate_generalize_unifies :
    ∀ (env : TypeEnv) (t : Ty) (c fuel : Nat),
    wfTy c t = true → tyWeight t ≤ fuel →
    ∃ sub, unify fuel (instantiate (generalize env t) c).1 t = .ok sub := by
  intro env t c fuel hwf hfw
  have hnd : ((freeTypeVars t).filter
      (fun id => id ∉ freeTypeVarsInEnv env)).Nodup :=
    (freeTypeVars_nodup t).filter _
  have hnone : ∀ q ∈ (freeTypeVars t).filter
      (fun id => id ∉ freeTypeVarsInEnv env), subGet [] q = none :=
    fun q _ => rfl
  have hstep : (instantiate (generalize env t) c).1
      = applySubstitution
          (renList ((freeTypeVars t).filter
            (fun id => id ∉ freeTypeVarsInEnv env)) c) t := by
    simp only [instantiate, generalize]
    rw [instantiate_foldl _ [] c hnd hnone]
    simp
  have hq_lt : ∀ q ∈ (freeTypeVars t).filter
      (fun id => id ∉ freeTypeVarsInEnv env), q < c := by
    intro q hq
    exact freeTypeVars_lt t hwf q (List.mem_of_mem_filter hq)
  have hren : Ren c (renList ((freeTypeVars t).filter
      (fun id => id ∉ freeTypeVarsInEnv env)) c) := by
    constructor
    · intro p hp
      obtain ⟨hmem, f, himg, hf⟩ := renList_mem_shape _ c p hp
      exact ⟨hq_lt _ hmem, f, himg, hf⟩
    · exact renList_inj _ c
  have hrel := renRel_of_applySub hren t hwf
  obtain ⟨m, hm, _⟩ := (unify_renamed_main hren fuel).1 _ t hrel hwf hfw
  exact ⟨m, hstep ▸ hm⟩

/-- C6 witness at `(t0) => t0` in the empty environment with counter 1:
generalization quantifies `t0`, instantiation renames it to `t1`, and
unification succeeds. -/
theorem c6_witness :
    wfTy 1 (.fn [.tvar 0] (.tvar 0)) = true ∧
    tyWeight (.fn [.tvar 0] (.tvar 0)) ≤ 10 ∧
    ∃ sub, unify 10 (instantiate (generalize [] (.fn [.tvar 0] (.tvar 0))) 1).1
        (.fn [.tvar 0] (.tvar 0)) = .ok sub :=
  ⟨rfl, by decide,
   c6_instantiate_generalize_unifies [] (.fn [.tvar 0] (.tvar 0)) 1 10 rfl
     (by decide)⟩

end MTS
